import Mathlib

/-!
Shallow embedding of `src/server.js` (a minimal Express portfolio store) and
proofs about it.

The server keeps an ordered collection of JSON records in one file and exposes
three routes: `POST /api/portfolios` (create), `GET /api/portfolios` (list),
`DELETE /api/portfolios/:id` (delete by id).  JSON values are embedded as the
mutual inductive `JValue`/`JArray`/`JObject` below; JSON numbers are modelled
as integers (the integral fragment of JS numbers — float formatting is out of
scope for this embedding).  JS objects have unique keys and remember insertion
order, so `JObject` is a key/value sequence and `setField` implements the JS
property-write semantics: overwrite in place when the key exists, append
otherwise.

Effects are made explicit: each route handler is a pure function of the
request data, the current collection, and an environment record carrying the
values the handler pulls from the outside world (the generated UUID, the two
`new Date().toISOString()` readings, and the outcome the file system gives the
`fs.writeFile` call).  A handler returns its HTTP response envelope, the
argument of the `writePortfolios` call when one is made, and the collection
that is on disk afterwards.
-/

mutual
inductive JValue where
  | null : JValue
  | bool (b : Bool) : JValue
  | num (n : Int) : JValue
  | str (s : String) : JValue
  | arr (items : JArray) : JValue
  | obj (fields : JObject) : JValue
  deriving DecidableEq
inductive JArray where
  | anil : JArray
  | acons (v : JValue) (rest : JArray) : JArray
  deriving DecidableEq
inductive JObject where
  | onil : JObject
  | ocons (key : String) (v : JValue) (rest : JObject) : JObject
  deriving DecidableEq
end

namespace JObject

/-- Does the object have a property named `k`? -/
def hasKey : JObject → String → Bool
  | .onil, _ => false
  | .ocons key _ rest, k => key == k || hasKey rest k

/-- Property read, `o[k]`: the value at the first (hence, in a real JS object,
only) occurrence of the key. -/
def getField : JObject → String → Option JValue
  | .onil, _ => none
  | .ocons key v rest, k => if key == k then some v else getField rest k

/-- Property write, `o[k] = v`: JS objects overwrite an existing property in
place (keeping its position in insertion order) and append a new one. -/
def setField : JObject → String → JValue → JObject
  | .onil, k, v => .ocons k v .onil
  | .ocons key w rest, k, v =>
    if key == k then .ocons key v rest else .ocons key w (setField rest k v)

/-- Concatenation of two property sequences (used to state parser lemmas). -/
def oappend : JObject → JObject → JObject
  | .onil, o => o
  | .ocons k v rest, o => .ocons k v (oappend rest o)

end JObject

namespace JArray

/-- The embedded array as a Lean list. -/
def toList : JArray → List JValue
  | .anil => []
  | .acons v rest => v :: toList rest

/-- A Lean list as an embedded array. -/
def ofList : List JValue → JArray
  | [] => .anil
  | v :: rest => .acons v (ofList rest)

end JArray

/-- The JS strict comparison `portfolio.id === id` performed by the delete
handler's `findIndex` callback, where `id` is the (string) route parameter:
property access on a non-object yields `undefined`, and `===` against a string
is true exactly for an equal string. -/
def jsIdEq (r : JValue) (id : String) : Bool :=
  match r with
  | .obj fields =>
    match fields.getField "id" with
    | some (.str s) => s == id
    | _ => false
  | _ => false

/-- Combined `portfolios.findIndex(...)` / `portfolios.splice(index, 1)[0]` of
the delete handler: remove the first record satisfying `p`, returning it and
the remaining list, or `none` when `findIndex` yields `-1`. -/
def removeFirst (p : JValue → Bool) : List JValue → Option (JValue × List JValue)
  | [] => none
  | r :: rs =>
    if p r then some (r, rs)
    else
      match removeFirst p rs with
      | none => none
      | some (d, rs1) => some (d, r :: rs1)

/-- The `...req.body` spread in the create handler's object literal: each own
property of `body`, in order, is written onto `base`. -/
def spreadInto (base : JObject) : JObject → JObject
  | .onil => base
  | .ocons k v rest => spreadInto (base.setField k v) rest

/-- Environment values consumed by the create handler: the `uuidv4()` result,
the two successive `new Date().toISOString()` readings (the literal evaluates
the clock twice), and the file-system outcome of its `fs.writeFile`. -/
structure CreateCtx where
  uuid : String
  nowA : String
  nowB : String
  writeOutcome : Except String Unit

/-- The object literal of the create handler,
`{ id: uuidv4(), ...req.body, createdAt: ..., updatedAt: ... }`:
properties are written left to right, so the spread of `req.body` lands on top
of the generated `id`, and the two timestamps land on top of the spread. -/
def newPortfolio (ctx : CreateCtx) (body : JObject) : JObject :=
  ((spreadInto (JObject.ocons "id" (.str ctx.uuid) .onil) body).setField
      "createdAt" (.str ctx.nowA)).setField "updatedAt" (.str ctx.nowB)

/-- Response envelope: status code plus the JSON body fields the server ever
sets (`success`, `message`, and optionally `data`, `error`, `count`). -/
structure ApiResponse where
  status : Nat
  success : Bool
  message : String
  data : Option JValue := none
  error : Option String := none
  count : Option Nat := none
  deriving DecidableEq

/-- What one request does: its response, the argument of the `writePortfolios`
call when the handler makes one, and the collection persisted afterwards. -/
structure HandlerOut where
  response : ApiResponse
  saved : Option (List JValue)
  persisted : List JValue
  deriving DecidableEq

/-- The body of `writePortfolios`: the `try` writes; the `catch` logs and
rethrows, so the caller sees exactly the file system's failure. -/
def writePortfolios (outcome : Except String Unit) : Except String Unit :=
  match outcome with
  | .ok _ => .ok ()
  | .error e => .error e

/-- The `POST /api/portfolios` handler on an already-loaded collection: build
the new record, `push` it, write the file; 201 with the record on success,
500 with the error message when the write throws (leaving the file as it
was). -/
def postPortfolios (ctx : CreateCtx) (body : JObject) (col : List JValue) :
    HandlerOut :=
  let newP : JValue := .obj (newPortfolio ctx body)
  let col1 := col ++ [newP]
  match writePortfolios ctx.writeOutcome with
  | .ok _ =>
    { response :=
        { status := 201, success := true,
          message := "Portfolio created successfully", data := some newP },
      saved := some col1, persisted := col1 }
  | .error msg =>
    { response :=
        { status := 500, success := false,
          message := "Internal server error", error := some msg },
      saved := some col1, persisted := col }

/-- The `GET /api/portfolios` handler on an already-loaded collection: a 200
envelope carrying the collection and its length; it never writes. -/
def getPortfolios (col : List JValue) : HandlerOut :=
  { response :=
      { status := 200, success := true,
        message := "Portfolios retrieved successfully",
        data := some (.arr (JArray.ofList col)), count := some col.length },
    saved := none, persisted := col }

/-- The `DELETE /api/portfolios/:id` handler on an already-loaded collection:
`findIndex` by id; on `-1` a 404 with no write; otherwise `splice` out the
record and write the file, answering 200 with the removed record, or 500 and
an unchanged file when the write throws. -/
def deletePortfolioById (id : String) (writeOutcome : Except String Unit)
    (col : List JValue) : HandlerOut :=
  match removeFirst (fun r => jsIdEq r id) col with
  | none =>
    { response :=
        { status := 404, success := false, message := "Portfolio not found" },
      saved := none, persisted := col }
  | some (deleted, col1) =>
    match writePortfolios writeOutcome with
    | .ok _ =>
      { response :=
          { status := 200, success := true,
            message := "Portfolio deleted successfully", data := some deleted },
        saved := some col1, persisted := col1 }
    | .error msg =>
      { response :=
          { status := 500, success := false,
            message := "Internal server error", error := some msg },
        saved := some col1, persisted := col }

/-! ## Serialization: `JSON.stringify(portfolios, null, 2)`

The data file is written pretty-printed with two-space indentation, so the
printer threads the current nesting level and emits the newline/indent
skeleton `JSON.stringify` produces: empty arrays and objects print as `[]` and
the brace pair, non-empty ones put every item on its own line indented one
level deeper, and close on a fresh line at the current level. -/

/-- Two spaces per nesting level. -/
def indentChars (k : Nat) : List Char := List.replicate (2 * k) ' '

/-- Lowercase hexadecimal digit for `n < 16`. -/
def hexDigitChar (n : Nat) : Char :=
  if n < 10 then Char.ofNat (48 + n) else Char.ofNat (87 + n)

/-- How `JSON.stringify` emits one character of a string: the two-character
escapes for quote, backslash, backspace, form feed, newline, carriage return
and tab, `\u00xx` for the remaining control characters, and the character
itself otherwise. -/
def escapeJsonChar (c : Char) : List Char :=
  match c with
  | '\\' => ['\\', '\\']
  | '"' => ['\\', '"']
  | '\t' => ['\\', 't']
  | '\r' => ['\\', 'r']
  | '\n' => ['\\', 'n']
  | c =>
    if c.toNat == 8 then ['\\', 'b']
    else if c.toNat == 12 then ['\\', 'f']
    else if c.toNat < 32 then
      ['\\', 'u', '0', '0', hexDigitChar (c.toNat / 16), hexDigitChar (c.toNat % 16)]
    else [c]

/-- A JSON string literal: quote, escaped characters, quote. -/
def quoteChars (s : String) : List Char :=
  '"' :: (s.data.flatMap escapeJsonChar ++ ['"'])

/-- Decimal digit character for `n < 10`. -/
def decDigitChar (n : Nat) : Char := Char.ofNat (48 + n)

/-- Decimal digits, most significant first, by recursion on a fuel bound
(`n < fuel` always suffices, since dividing by ten shrinks the number). -/
def natDecimalAux : Nat → Nat → List Char
  | 0, _ => []
  | fuel + 1, n =>
    if n < 10 then [decDigitChar n]
    else natDecimalAux fuel (n / 10) ++ [decDigitChar (n % 10)]

/-- Decimal digits of a natural number, most significant first. -/
def natDecimal (n : Nat) : List Char := natDecimalAux (n + 1) n

/-- Decimal form of an integer: optional minus sign, then digits. -/
def intDecimal (i : Int) : List Char :=
  if i < 0 then '-' :: natDecimal i.natAbs else natDecimal i.natAbs

mutual
/-- Pretty-print a value at nesting level `k`, as `JSON.stringify(v, null, 2)`
does inside a document. -/
def ppValue (k : Nat) : JValue → List Char
  | .bool false => ['f', 'a', 'l', 's', 'e']
  | .bool true => ['t', 'r', 'u', 'e']
  | .null => ['n', 'u', 'l', 'l']
  | .num n => intDecimal n
  | .str s => quoteChars s
  | .arr .anil => ['[', ']']
  | .arr (.acons v rest) =>
    '[' :: '\n' ::
      (ppItems k (.acons v rest) ++ '\n' :: (indentChars k ++ [']']))
  | .obj .onil => ['\x7b', '\x7d']
  | .obj (.ocons key v rest) =>
    '\x7b' :: '\n' ::
      (ppFields k (.ocons key v rest) ++ '\n' :: (indentChars k ++ ['\x7d']))
/-- The lines of a non-empty array body: each item indented one level deeper,
separated by a comma and a newline. -/
def ppItems (k : Nat) : JArray → List Char
  | .anil => []
  | .acons v .anil => indentChars (k + 1) ++ ppValue (k + 1) v
  | .acons v (.acons w rest) =>
    indentChars (k + 1) ++ ppValue (k + 1) v ++
      ',' :: '\n' :: ppItems k (.acons w rest)
/-- The lines of a non-empty object body: `"key": value` pairs indented one
level deeper, separated by a comma and a newline. -/
def ppFields (k : Nat) : JObject → List Char
  | .onil => []
  | .ocons key v .onil =>
    indentChars (k + 1) ++ quoteChars key ++ ':' :: ' ' :: ppValue (k + 1) v
  | .ocons key v (.ocons key2 w rest) =>
    indentChars (k + 1) ++ quoteChars key ++ ':' :: ' ' :: ppValue (k + 1) v ++
      ',' :: '\n' :: ppFields k (.ocons key2 w rest)
end

/-- The document `JSON.stringify(v, null, 2)` as a string. -/
def stringifyPretty (v : JValue) : String := String.mk (ppValue 0 v)

/-! ## Parsing: `JSON.parse`

The parser recurses on explicit fuel (so it is total); `jsonParse` hands it
enough fuel for any input it can possibly accept.  It follows the JSON
grammar: insignificant whitespace is skipped before every token, strings
understand the eight short escapes and `\uXXXX`, and duplicate object keys
collapse by in-place overwrite exactly as building a JS object does.  Number
literals are restricted to the integer fragment the embedding models: a
fractional part or exponent is a parse failure here rather than a float. -/

/-- JSON insignificant whitespace. -/
def isJsonWs (c : Char) : Bool :=
  c == ' ' || c == '\t' || c == '\n' || c == '\r'

/-- Drop leading insignificant whitespace. -/
def dropWs : List Char → List Char
  | [] => []
  | c :: cs => if isJsonWs c then dropWs cs else c :: cs

/-- ASCII decimal digit test. -/
def isDigitCh (c : Char) : Bool := 48 ≤ c.toNat && c.toNat ≤ 57

/-- Split off the longest leading run of decimal digits. -/
def digitRun : List Char → List Char × List Char
  | [] => ([], [])
  | c :: cs =>
    if isDigitCh c then
      let (ds, r) := digitRun cs
      (c :: ds, r)
    else ([], c :: cs)

/-- Value of a digit run. -/
def digitsVal (ds : List Char) : Nat :=
  ds.foldl (fun a c => a * 10 + (c.toNat - 48)) 0

/-- Value of one hexadecimal digit, if it is one. -/
def hexDigitVal (c : Char) : Option Nat :=
  if 48 ≤ c.toNat && c.toNat ≤ 57 then some (c.toNat - 48)
  else if 97 ≤ c.toNat && c.toNat ≤ 102 then some (c.toNat - 87)
  else if 65 ≤ c.toNat && c.toNat ≤ 70 then some (c.toNat - 55)
  else none

/-- The character a short escape stands for. -/
def unescapeJson : Char → Option Char
  | '"' => some '"'
  | '\\' => some '\\'
  | '/' => some '/'
  | 'b' => some (Char.ofNat 8)
  | 'f' => some (Char.ofNat 12)
  | 'n' => some '\n'
  | 'r' => some '\r'
  | 't' => some '\t'
  | _ => none

/-- Parse a string body after its opening quote, accumulating the decoded
characters in reverse. -/
def parseStrBody (acc : List Char) : List Char → Except String (String × List Char)
  | '"' :: rest => .ok (String.mk acc.reverse, rest)
  | '\\' :: 'u' :: a :: b :: c :: d :: rest =>
    (match hexDigitVal a, hexDigitVal b, hexDigitVal c, hexDigitVal d with
     | some va, some vb, some vc, some vd =>
       parseStrBody (Char.ofNat (((va * 16 + vb) * 16 + vc) * 16 + vd) :: acc) rest
     | _, _, _, _ => .error "bad unicode escape")
  | '\\' :: e :: rest =>
    (match unescapeJson e with
     | some ch => parseStrBody (ch :: acc) rest
     | none => .error "bad escape")
  | c :: rest => parseStrBody (c :: acc) rest
  | [] => .error "unterminated string literal"

/-- Parse an integer literal: optional minus sign and a digit run.  A
fractional part or exponent falls outside the modelled integer fragment. -/
def parseIntTok (cs : List Char) : Except String (Int × List Char) :=
  let (neg, cs1) := match cs with
    | '-' :: r => (true, r)
    | _ => (false, cs)
  let (ds, cs2) := digitRun cs1
  if ds.isEmpty then .error "expected digits"
  else
    match cs2 with
    | '.' :: _ => .error "non-integer number"
    | 'e' :: _ => .error "non-integer number"
    | 'E' :: _ => .error "non-integer number"
    | _ => .ok (if neg then -(digitsVal ds : Int) else (digitsVal ds : Int), cs2)

mutual
/-- Parse one JSON value (leading whitespace allowed). -/
def parseJVal : Nat → List Char → Except String (JValue × List Char)
  | 0, _ => .error "fuel exhausted"
  | fuel + 1, cs =>
    match dropWs cs with
    | 'n' :: 'u' :: 'l' :: 'l' :: r => .ok (.null, r)
    | 'f' :: 'a' :: 'l' :: 's' :: 'e' :: r => .ok (.bool false, r)
    | 't' :: 'r' :: 'u' :: 'e' :: r => .ok (.bool true, r)
    | '"' :: r =>
      (match parseStrBody [] r with
       | .ok (s, r1) => .ok (.str s, r1)
       | .error e => .error e)
    | '[' :: r =>
      (match dropWs r with
       | [] => .error "unexpected end of input"
       | c :: r1 =>
         if c = ']' then .ok (.arr .anil, r1)
         else
           match parseJItems fuel (c :: r1) with
           | .ok (items, r2) => .ok (.arr items, r2)
           | .error e => .error e)
    | '\x7b' :: r =>
      (match dropWs r with
       | [] => .error "unexpected end of input"
       | c :: r1 =>
         if c = '\x7d' then .ok (.obj .onil, r1)
         else
           match parseJFields fuel .onil (c :: r1) with
           | .ok (fields, r2) => .ok (.obj fields, r2)
           | .error e => .error e)
    | c :: r =>
      if c == '-' || isDigitCh c then
        match parseIntTok (c :: r) with
        | .ok (n, r1) => .ok (.num n, r1)
        | .error e => .error e
      else .error "unexpected character"
    | [] => .error "unexpected end of input"
/-- Parse the comma-separated items of a non-empty array, through the closing
bracket. -/
def parseJItems : Nat → List Char → Except String (JArray × List Char)
  | 0, _ => .error "fuel exhausted"
  | fuel + 1, cs =>
    match parseJVal fuel cs with
    | .error e => .error e
    | .ok (v, r) =>
      match dropWs r with
      | ',' :: r1 =>
        (match parseJItems fuel r1 with
         | .ok (items, r2) => .ok (.acons v items, r2)
         | .error e => .error e)
      | ']' :: r1 => .ok (.acons v .anil, r1)
      | _ => .error "expected comma or close bracket"
/-- Parse the members of a non-empty object, through the closing brace,
writing each member onto `acc` in order (so a duplicate key overwrites in
place, as JS property assignment does). -/
def parseJFields : Nat → JObject → List Char → Except String (JObject × List Char)
  | 0, _, _ => .error "fuel exhausted"
  | fuel + 1, acc, cs =>
    match dropWs cs with
    | '"' :: r =>
      (match parseStrBody [] r with
       | .error e => .error e
       | .ok (key, r1) =>
         match dropWs r1 with
         | ':' :: r2 =>
           (match parseJVal fuel r2 with
            | .error e => .error e
            | .ok (v, r3) =>
              match dropWs r3 with
              | ',' :: r4 => parseJFields fuel (acc.setField key v) r4
              | '\x7d' :: r4 => .ok (acc.setField key v, r4)
              | _ => .error "expected comma or close brace")
         | _ => .error "expected colon")
    | _ => .error "expected a string key"
end

/-- Parse a complete JSON document: one value, then only trailing whitespace.
The fuel `2 * length + 2` covers any accepting run, since the parser consumes
at least one character across every two nested calls. -/
def jsonParse (s : String) : Except String JValue :=
  match parseJVal (2 * s.data.length + 2) s.data with
  | .error e => .error e
  | .ok (v, r) =>
    if (dropWs r).isEmpty then .ok v else .error "unexpected trailing characters"

/-! ## The file and the record store -/

/-- The states the backing file can present to a read: missing, unreadable
for some other I/O reason, or holding some byte content. -/
inductive FileState where
  | absent
  | unreadable (msg : String)
  | stored (content : String)

/-- What `fs.readFile` yields in each file state. -/
def fsReadFile : FileState → Except String String
  | .absent => .error "ENOENT: no such file or directory"
  | .unreadable msg => .error msg
  | .stored s => .ok s

/-- The `try` body of `readPortfolios`: read the file, then `JSON.parse` the
contents; either step can fail. -/
def readPortfoliosTry (fs : FileState) : Except String JValue :=
  match fsReadFile fs with
  | .error e => .error e
  | .ok data => jsonParse data

/-- The whole of `readPortfolios`: the `catch` turns any read or parse
failure into the empty array, so the function is total. -/
def readPortfolios (fs : FileState) : JValue :=
  match readPortfoliosTry fs with
  | .ok v => v
  | .error _ => .arr .anil

/-- The file state a successful `writePortfolios(portfolios)` leaves behind:
the collection serialized as a pretty-printed JSON array. -/
def writePortfoliosFile (col : List JValue) : FileState :=
  .stored (stringifyPretty (.arr (JArray.ofList col)))

/-! ## Reachable collections -/

/-- Collection states reachable from the initial empty file through any
sequence of create and delete requests (whatever environment values each
request sees, including failing writes, which leave the state unchanged). -/
inductive ReachableCollection : List JValue → Prop where
  | start : ReachableCollection []
  | create (ctx : CreateCtx) (body : JObject) (col : List JValue) :
      ReachableCollection col →
      ReachableCollection (postPortfolios ctx body col).persisted
  | remove (id : String) (wo : Except String Unit) (col : List JValue) :
      ReachableCollection col →
      ReachableCollection (deletePortfolioById id wo col).persisted

/-- Reachability under the discipline the id-uniqueness invariant needs: no
create payload carries its own `id` property, and every generated UUID is
fresh for the collection it is added to. -/
inductive ReachableFreshIds : List JValue → Prop where
  | start : ReachableFreshIds []
  | create (ctx : CreateCtx) (body : JObject) (col : List JValue) :
      ReachableFreshIds col →
      body.hasKey "id" = false →
      (∀ r ∈ col, jsIdEq r ctx.uuid = false) →
      ReachableFreshIds (postPortfolios ctx body col).persisted
  | remove (id : String) (wo : Except String Unit) (col : List JValue) :
      ReachableFreshIds col →
      ReachableFreshIds (deletePortfolioById id wo col).persisted

/-- The `id` property of a record, when the record is an object that has
one. -/
def idField (r : JValue) : Option JValue :=
  match r with
  | .obj fields => fields.getField "id"
  | _ => none

/-- Formalization of the spec sentence the timestamp fields are checked
against: the exact shape `Date.prototype.toISOString` output has,
`YYYY-MM-DDTHH:MM:SS.sssZ` (a 24-character ISO-8601 UTC timestamp). -/
def isoTimestamp (s : String) : Bool :=
  match s.data with
  | [y1, y2, y3, y4, h1, mo1, mo2, h2, d1, d2, tc, hh1, hh2, c1, mi1, mi2,
     c2, s1, s2, dot, ms1, ms2, ms3, zc] =>
    isDigitCh y1 && isDigitCh y2 && isDigitCh y3 && isDigitCh y4 &&
    h1 == '-' && isDigitCh mo1 && isDigitCh mo2 && h2 == '-' &&
    isDigitCh d1 && isDigitCh d2 && tc == 'T' &&
    isDigitCh hh1 && isDigitCh hh2 && c1 == ':' &&
    isDigitCh mi1 && isDigitCh mi2 && c2 == ':' &&
    isDigitCh s1 && isDigitCh s2 && dot == '.' &&
    isDigitCh ms1 && isDigitCh ms2 && isDigitCh ms3 && zc == 'Z'
  | _ => false

/-- Keys pairwise distinct at the top level of an object (every object a JS
program actually builds satisfies this; the assoc-list encoding does not force
it). -/
def JObject.keysUnique : JObject → Bool
  | .onil => true
  | .ocons key _ rest => !(rest.hasKey key) && keysUnique rest

mutual
/-- Well-formed value: every object nested anywhere in it has pairwise
distinct keys, so it encodes a real JS value. -/
def wfValue : JValue → Bool
  | .null => true
  | .bool _ => true
  | .num _ => true
  | .str _ => true
  | .arr a => wfArray a
  | .obj o => wfObject o
/-- Well-formedness of every item of an array. -/
def wfArray : JArray → Bool
  | .anil => true
  | .acons v rest => wfValue v && wfArray rest
/-- Well-formedness of an object: the key is new at each step, and every value
is well-formed. -/
def wfObject : JObject → Bool
  | .onil => true
  | .ocons key v rest => !(rest.hasKey key) && wfValue v && wfObject rest
end

/-- Well-formedness of every record of a collection. -/
def wfCollection (col : List JValue) : Bool := col.all wfValue

/-- A remainder a number literal cannot leak into: empty, or headed by a
character that is neither a digit nor a fractional/exponent marker.  Every
delimiter the pretty-printer emits after a value qualifies. -/
def afterNumberOk : List Char → Bool
  | [] => true
  | c :: _ => !(isDigitCh c || c == '.' || c == 'e' || c == 'E')

/-- The printed text that follows the first item of an array body, through
the closing bracket, with `out` the remainder after it: either the newline,
closing indentation and bracket, or a comma, newline and the next indented
item, recursively.  The roundtrip proof peels one item at a time with it. -/
def itemsTail (k : Nat) (a : JArray) (out : List Char) : List Char :=
  match a with
  | .anil => '\n' :: (indentChars k ++ ']' :: out)
  | .acons w rest =>
    ',' :: '\n' ::
      (indentChars (k + 1) ++ ppValue (k + 1) w ++ itemsTail k rest out)

/-- The object analogue of `itemsTail`: what follows the first member of an
object body, through the closing brace. -/
def fieldsTail (k : Nat) (o : JObject) (out : List Char) : List Char :=
  match o with
  | .onil => '\n' :: (indentChars k ++ '\x7d' :: out)
  | .ocons key v rest =>
    ',' :: '\n' ::
      (indentChars (k + 1) ++ quoteChars key ++ ':' :: ' ' ::
        (ppValue (k + 1) v ++ fieldsTail k rest out))

/-! ## Lemmas about object property access -/

/-- Induction along the property spine of an object (the `induction` tactic
cannot use the mutual recursor directly). -/
theorem JObject.objSpineInd {P : JObject → Prop} (base : P .onil)
    (step : ∀ k v rest, P rest → P (.ocons k v rest)) : ∀ o, P o
  | .onil => base
  | .ocons k v rest => step k v rest (objSpineInd base step rest)

theorem JObject.getField_setField_self (o : JObject) (k : String) (v : JValue) :
    (o.setField k v).getField k = some v := by
  induction o using JObject.objSpineInd with
  | base => simp [setField, getField]
  | step key w rest ih =>
    by_cases h : key = k
    · simp [setField, getField, h]
    · simp [setField, getField, h, ih]

theorem JObject.getField_setField_of_ne (o : JObject) (k k2 : String)
    (v : JValue) (h : k ≠ k2) :
    (o.setField k v).getField k2 = o.getField k2 := by
  induction o using JObject.objSpineInd with
  | base => simp [setField, getField, h]
  | step key w rest ih =>
    by_cases hk : key = k
    · subst hk
      simp [setField, getField, h]
    · by_cases hk2 : key = k2
      · subst hk2
        simp [setField, getField, hk]
      · simp [setField, getField, hk, hk2, ih]

theorem spreadInto_getField_of_not_hasKey (body : JObject) :
    ∀ (base : JObject) (k : String), body.hasKey k = false →
      (spreadInto base body).getField k = base.getField k := by
  induction body using JObject.objSpineInd with
  | base => intro base k _; rfl
  | step key v rest ih =>
    intro base k hk
    simp only [JObject.hasKey, Bool.or_eq_false_iff, beq_eq_false_iff_ne] at hk
    simp only [spreadInto]
    rw [ih _ k (by simp [hk.2]), JObject.getField_setField_of_ne _ _ _ _ hk.1]

theorem spreadInto_getField_of_getField (body : JObject) :
    ∀ (base : JObject) (k : String) (v : JValue), body.keysUnique = true →
      body.getField k = some v →
      (spreadInto base body).getField k = some v := by
  induction body using JObject.objSpineInd with
  | base => intro base k v _ h; simp [JObject.getField] at h
  | step key w rest ih =>
    intro base k v hu h
    simp only [JObject.keysUnique, Bool.and_eq_true, Bool.not_eq_true'] at hu
    simp only [JObject.getField] at h
    by_cases hk : key = k
    · subst hk
      simp only [beq_self_eq_true, if_true, Option.some.injEq] at h
      subst h
      simp only [spreadInto]
      rw [spreadInto_getField_of_not_hasKey rest _ key hu.1,
        JObject.getField_setField_self]
    · rw [if_neg (by simpa using hk)] at h
      simpa [spreadInto] using ih _ k v hu.2 h

theorem newPortfolio_getField_createdAt (ctx : CreateCtx) (body : JObject) :
    (newPortfolio ctx body).getField "createdAt" = some (.str ctx.nowA) := by
  unfold newPortfolio
  rw [JObject.getField_setField_of_ne _ _ _ _ (by decide),
    JObject.getField_setField_self]

theorem newPortfolio_getField_updatedAt (ctx : CreateCtx) (body : JObject) :
    (newPortfolio ctx body).getField "updatedAt" = some (.str ctx.nowB) := by
  unfold newPortfolio
  rw [JObject.getField_setField_self]

theorem newPortfolio_getField_id (ctx : CreateCtx) (body : JObject) :
    (body.hasKey "id" = false →
      (newPortfolio ctx body).getField "id" = some (.str ctx.uuid)) ∧
    (∀ v, body.keysUnique = true → body.getField "id" = some v →
      (newPortfolio ctx body).getField "id" = some v) := by
  constructor
  · intro h
    unfold newPortfolio
    rw [JObject.getField_setField_of_ne _ _ _ _ (by decide),
      JObject.getField_setField_of_ne _ _ _ _ (by decide),
      spreadInto_getField_of_not_hasKey _ _ _ h]
    rfl
  · intro v hu h
    unfold newPortfolio
    rw [JObject.getField_setField_of_ne _ _ _ _ (by decide),
      JObject.getField_setField_of_ne _ _ _ _ (by decide),
      spreadInto_getField_of_getField _ _ _ _ hu h]

theorem idField_newPortfolio_of_no_id (ctx : CreateCtx) (body : JObject)
    (h : body.hasKey "id" = false) :
    idField (.obj (newPortfolio ctx body)) = some (.str ctx.uuid) := by
  simpa [idField] using (newPortfolio_getField_id ctx body).1 h

theorem jsIdEq_of_idField (r : JValue) (u : String)
    (h : idField r = some (.str u)) : jsIdEq r u = true := by
  cases r <;> simp_all [idField, jsIdEq]

/-! ## Lemmas about the delete scan -/

theorem removeFirst_eq_none_iff (p : JValue → Bool) (col : List JValue) :
    removeFirst p col = none ↔ ∀ r ∈ col, p r = false := by
  induction col with
  | nil => simp [removeFirst]
  | cons r rs ih =>
    by_cases h : p r
    · simp [removeFirst, h]
    · cases hr : removeFirst p rs <;>
        simp_all [removeFirst, Bool.not_eq_true]

theorem removeFirst_spec (p : JValue → Bool) (col : List JValue)
    (d : JValue) (rest : List JValue) (h : removeFirst p col = some (d, rest)) :
    ∃ i : Nat, i < col.length ∧ col[i]? = some d ∧ p d = true ∧
      (∀ j, j < i → ∃ r, col[j]? = some r ∧ p r = false) ∧
      rest = col.take i ++ col.drop (i + 1) := by
  induction col generalizing d rest with
  | nil => simp [removeFirst] at h
  | cons r rs ih =>
    by_cases hp : p r
    · rw [removeFirst, if_pos hp] at h
      obtain ⟨rfl, rfl⟩ : r = d ∧ rs = rest := by
        simpa using h
      exact ⟨0, by simp, by simp, hp, by omega, by simp⟩
    · rw [removeFirst, if_neg hp] at h
      cases hr : removeFirst p rs with
      | none => rw [hr] at h; simp at h
      | some pr =>
        obtain ⟨d1, rest1⟩ := pr
        rw [hr] at h
        obtain ⟨rfl, rfl⟩ : d1 = d ∧ r :: rest1 = rest := by
          simpa using h
        obtain ⟨i, hlen, hget, hpd, hbefore, hrest⟩ := ih d1 rest1 hr
        refine ⟨i + 1, by simpa using hlen, by simpa using hget, hpd, ?_, ?_⟩
        · intro j hj
          cases j with
          | zero => exact ⟨r, by simp, by simpa using hp⟩
          | succ j0 =>
            obtain ⟨r0, hr0, hpr0⟩ := hbefore j0 (by omega)
            exact ⟨r0, by simpa using hr0, hpr0⟩
        · simp [hrest]

theorem removeFirst_sublist (p : JValue → Bool) (col : List JValue)
    (d : JValue) (rest : List JValue) (h : removeFirst p col = some (d, rest)) :
    rest.Sublist col := by
  induction col generalizing d rest with
  | nil => simp [removeFirst] at h
  | cons r rs ih =>
    by_cases hp : p r
    · rw [removeFirst, if_pos hp] at h
      obtain ⟨rfl, rfl⟩ : r = d ∧ rs = rest := by simpa using h
      exact List.sublist_cons_self _ _
    · rw [removeFirst, if_neg hp] at h
      cases hr : removeFirst p rs with
      | none => rw [hr] at h; simp at h
      | some pr =>
        obtain ⟨d1, rest1⟩ := pr
        rw [hr] at h
        obtain ⟨rfl, rfl⟩ : d1 = d ∧ r :: rest1 = rest := by simpa using h
        exact List.Sublist.cons₂ r (ih d1 rest1 hr)

theorem JArray.toList_ofList (col : List JValue) :
    (JArray.ofList col).toList = col := by
  induction col with
  | nil => rfl
  | cons v rest ih => simp [JArray.ofList, JArray.toList, ih]

theorem JObject.hasKey_eq_false_of_getField_none (o : JObject) (k : String)
    (h : o.getField k = none) : o.hasKey k = false := by
  induction o using JObject.objSpineInd with
  | base => rfl
  | step key v rest ih =>
    by_cases hk : key = k
    · simp [getField, hk] at h
    · simp only [getField, beq_iff_eq, if_neg hk] at h
      simp [hasKey, hk, ih h]

/-! ## The claims -/

/-- Claim C1, counterexample: a create request whose payload carries a field
literally named `id` does override the server-generated UUID — the spread of
`req.body` is written after `id:` in the object literal, so the stored record
keeps the caller's value. -/
theorem claim_C1_counterexample :
    (postPortfolios
        ⟨"server-uuid", "2026-01-01T00:00:00.000Z", "2026-01-01T00:00:00.000Z",
          .ok ()⟩
        (.ocons "id" (.str "caller-id") .onil) []).persisted =
      [.obj (.ocons "id" (.str "caller-id")
        (.ocons "createdAt" (.str "2026-01-01T00:00:00.000Z")
          (.ocons "updatedAt" (.str "2026-01-01T00:00:00.000Z") .onil)))] ∧
    "caller-id" ≠ "server-uuid" := by
  exact ⟨by rfl, by decide⟩

/-- Claim C1 (amended): the record create stores and returns carries the
server-generated `createdAt` and `updatedAt` whatever same-named fields the
payload has, but the server-generated `id` only when the payload has no `id`
field: a caller-supplied `id` overrides the generated UUID, because the
spread of the payload is applied after the generated `id` and before the
timestamps. -/
theorem claim_C1_generated_field_precedence (ctx : CreateCtx) (body : JObject)
    (col : List JValue) (hu : body.keysUnique = true)
    (hok : ctx.writeOutcome = .ok ()) :
    (postPortfolios ctx body col).persisted
      = col ++ [.obj (newPortfolio ctx body)] ∧
    (postPortfolios ctx body col).response.data
      = some (.obj (newPortfolio ctx body)) ∧
    (newPortfolio ctx body).getField "createdAt" = some (.str ctx.nowA) ∧
    (newPortfolio ctx body).getField "updatedAt" = some (.str ctx.nowB) ∧
    (newPortfolio ctx body).getField "id"
      = some ((body.getField "id").getD (.str ctx.uuid)) := by
  refine ⟨by simp [postPortfolios, writePortfolios, hok],
    by simp [postPortfolios, writePortfolios, hok],
    newPortfolio_getField_createdAt ctx body,
    newPortfolio_getField_updatedAt ctx body, ?_⟩
  cases hid : body.getField "id" with
  | none =>
    have hnk : body.hasKey "id" = false :=
      JObject.hasKey_eq_false_of_getField_none body "id" hid
    simpa using (newPortfolio_getField_id ctx body).1 hnk
  | some v =>
    simpa using (newPortfolio_getField_id ctx body).2 v hu hid

theorem claim_C1_generated_field_precedence_witness :
    (postPortfolios
        ⟨"server-uuid", "2026-01-01T00:00:00.000Z", "2026-01-01T00:00:00.000Z",
          .ok ()⟩
        (.ocons "id" (.str "caller-id") .onil) []).persisted
      = [] ++ [.obj (newPortfolio
          ⟨"server-uuid", "2026-01-01T00:00:00.000Z", "2026-01-01T00:00:00.000Z",
            .ok ()⟩
          (.ocons "id" (.str "caller-id") .onil))] ∧
    (postPortfolios
        ⟨"server-uuid", "2026-01-01T00:00:00.000Z", "2026-01-01T00:00:00.000Z",
          .ok ()⟩
        (.ocons "id" (.str "caller-id") .onil) []).response.data
      = some (.obj (newPortfolio
          ⟨"server-uuid", "2026-01-01T00:00:00.000Z", "2026-01-01T00:00:00.000Z",
            .ok ()⟩
          (.ocons "id" (.str "caller-id") .onil))) ∧
    (newPortfolio
        ⟨"server-uuid", "2026-01-01T00:00:00.000Z", "2026-01-01T00:00:00.000Z",
          .ok ()⟩
        (.ocons "id" (.str "caller-id") .onil)).getField "createdAt"
      = some (.str "2026-01-01T00:00:00.000Z") ∧
    (newPortfolio
        ⟨"server-uuid", "2026-01-01T00:00:00.000Z", "2026-01-01T00:00:00.000Z",
          .ok ()⟩
        (.ocons "id" (.str "caller-id") .onil)).getField "updatedAt"
      = some (.str "2026-01-01T00:00:00.000Z") ∧
    (newPortfolio
        ⟨"server-uuid", "2026-01-01T00:00:00.000Z", "2026-01-01T00:00:00.000Z",
          .ok ()⟩
        (.ocons "id" (.str "caller-id") .onil)).getField "id"
      = some ((JObject.getField (.ocons "id" (.str "caller-id") .onil)
          "id").getD (.str "server-uuid")) :=
  claim_C1_generated_field_precedence
    ⟨"server-uuid", "2026-01-01T00:00:00.000Z", "2026-01-01T00:00:00.000Z",
      .ok ()⟩
    (.ocons "id" (.str "caller-id") .onil) [] (by decide) rfl

/-- Claim C3: when some record matches the id, the delete handler removes
exactly the first match (everything before it fails the id test), persists
the remaining records unchanged and in order (the splice of the original
sequence), answers 200 with the removed record, and the persisted length
drops by exactly one. -/
theorem claim_C3_delete_removes_first_match (id : String)
    (wo : Except String Unit) (col : List JValue) (hok : wo = .ok ())
    (hex : ∃ r ∈ col, jsIdEq r id = true) :
    ∃ i d, i < col.length ∧ col[i]? = some d ∧ jsIdEq d id = true ∧
      (∀ j, j < i → ∃ r, col[j]? = some r ∧ jsIdEq r id = false) ∧
      (deletePortfolioById id wo col).response =
        { status := 200, success := true,
          message := "Portfolio deleted successfully", data := some d } ∧
      (deletePortfolioById id wo col).saved =
        some (col.take i ++ col.drop (i + 1)) ∧
      (deletePortfolioById id wo col).persisted =
        col.take i ++ col.drop (i + 1) ∧
      (deletePortfolioById id wo col).persisted.length + 1 = col.length := by
  subst hok
  cases hr : removeFirst (fun r => jsIdEq r id) col with
  | none =>
    rw [removeFirst_eq_none_iff] at hr
    obtain ⟨r, hmem, hp⟩ := hex
    exact absurd (hr r hmem) (by simp [hp])
  | some pr =>
    obtain ⟨d, rest⟩ := pr
    obtain ⟨i, hlen, hget, hpd, hbefore, hrest⟩ :=
      removeFirst_spec _ _ _ _ hr
    refine ⟨i, d, hlen, hget, hpd, hbefore, ?_, ?_, ?_, ?_⟩
    · simp [deletePortfolioById, hr, writePortfolios]
    · simp [deletePortfolioById, hr, writePortfolios, hrest]
    · simp [deletePortfolioById, hr, writePortfolios, hrest]
    · simp only [deletePortfolioById, hr, writePortfolios, hrest,
        List.length_append, List.length_take, List.length_drop]
      omega

theorem claim_C3_delete_removes_first_match_witness :
    ∃ i d,
      i < ([.obj (.ocons "id" (.str "a") .onil),
            .obj (.ocons "id" (.str "b") .onil),
            .obj (.ocons "id" (.str "b") .onil)] : List JValue).length ∧
      ([.obj (.ocons "id" (.str "a") .onil),
        .obj (.ocons "id" (.str "b") .onil),
        .obj (.ocons "id" (.str "b") .onil)] : List JValue)[i]? = some d ∧
      jsIdEq d "b" = true ∧
      (∀ j, j < i → ∃ r,
        ([.obj (.ocons "id" (.str "a") .onil),
          .obj (.ocons "id" (.str "b") .onil),
          .obj (.ocons "id" (.str "b") .onil)] : List JValue)[j]? = some r ∧
        jsIdEq r "b" = false) ∧
      (deletePortfolioById "b" (.ok ())
        [.obj (.ocons "id" (.str "a") .onil),
         .obj (.ocons "id" (.str "b") .onil),
         .obj (.ocons "id" (.str "b") .onil)]).response =
        { status := 200, success := true,
          message := "Portfolio deleted successfully", data := some d } ∧
      (deletePortfolioById "b" (.ok ())
        [.obj (.ocons "id" (.str "a") .onil),
         .obj (.ocons "id" (.str "b") .onil),
         .obj (.ocons "id" (.str "b") .onil)]).saved =
        some (([.obj (.ocons "id" (.str "a") .onil),
                .obj (.ocons "id" (.str "b") .onil),
                .obj (.ocons "id" (.str "b") .onil)] : List JValue).take i ++
          ([.obj (.ocons "id" (.str "a") .onil),
            .obj (.ocons "id" (.str "b") .onil),
            .obj (.ocons "id" (.str "b") .onil)] : List JValue).drop (i + 1)) ∧
      (deletePortfolioById "b" (.ok ())
        [.obj (.ocons "id" (.str "a") .onil),
         .obj (.ocons "id" (.str "b") .onil),
         .obj (.ocons "id" (.str "b") .onil)]).persisted =
        ([.obj (.ocons "id" (.str "a") .onil),
          .obj (.ocons "id" (.str "b") .onil),
          .obj (.ocons "id" (.str "b") .onil)] : List JValue).take i ++
          ([.obj (.ocons "id" (.str "a") .onil),
            .obj (.ocons "id" (.str "b") .onil),
            .obj (.ocons "id" (.str "b") .onil)] : List JValue).drop (i + 1) ∧
      (deletePortfolioById "b" (.ok ())
        [.obj (.ocons "id" (.str "a") .onil),
         .obj (.ocons "id" (.str "b") .onil),
         .obj (.ocons "id" (.str "b") .onil)]).persisted.length + 1 =
        ([.obj (.ocons "id" (.str "a") .onil),
          .obj (.ocons "id" (.str "b") .onil),
          .obj (.ocons "id" (.str "b") .onil)] : List JValue).length :=
  claim_C3_delete_removes_first_match "b" (.ok ())
    [.obj (.ocons "id" (.str "a") .onil),
     .obj (.ocons "id" (.str "b") .onil),
     .obj (.ocons "id" (.str "b") .onil)] rfl
    ⟨.obj (.ocons "id" (.str "b") .onil), by decide, by decide⟩

/-- Claim C4: for every state of the backing file, `readPortfolios` either
passes through the parsed value of a successful read-and-parse, or returns
the empty array on any read or parse failure — it never propagates the
error. -/
theorem claim_C4_read_failures_yield_empty (fs : FileState) :
    (∃ v, readPortfoliosTry fs = .ok v ∧ readPortfolios fs = v) ∨
    (∃ e, readPortfoliosTry fs = .error e ∧
      readPortfolios fs = .arr .anil) := by
  cases h : readPortfoliosTry fs with
  | ok v => exact .inl ⟨v, rfl, by simp [readPortfolios, h]⟩
  | error e => exact .inr ⟨e, rfl, by simp [readPortfolios, h]⟩

/-- Claim C5: a failing file write is rethrown by `writePortfolios`, and the
create handler turns it into the 500 envelope carrying the error's message,
leaving the persisted collection as it was (the write was attempted with the
appended record, but its failure surfaces). -/
theorem claim_C5_write_failure_propagates (ctx : CreateCtx) (body : JObject)
    (col : List JValue) (msg : String) (h : ctx.writeOutcome = .error msg) :
    writePortfolios ctx.writeOutcome = .error msg ∧
    (postPortfolios ctx body col).response =
      { status := 500, success := false, message := "Internal server error",
        error := some msg } ∧
    (postPortfolios ctx body col).saved =
      some (col ++ [.obj (newPortfolio ctx body)]) ∧
    (postPortfolios ctx body col).persisted = col := by
  refine ⟨by simp [writePortfolios, h], ?_, ?_, ?_⟩ <;>
    simp [postPortfolios, writePortfolios, h]

theorem claim_C5_write_failure_propagates_witness :
    writePortfolios (CreateCtx.mk "u0" "2026-01-01T00:00:00.000Z"
        "2026-01-01T00:00:00.000Z" (.error "disk full")).writeOutcome =
      .error "disk full" ∧
    (postPortfolios
        ⟨"u0", "2026-01-01T00:00:00.000Z", "2026-01-01T00:00:00.000Z",
          .error "disk full"⟩ .onil []).response =
      { status := 500, success := false, message := "Internal server error",
        error := some "disk full" } ∧
    (postPortfolios
        ⟨"u0", "2026-01-01T00:00:00.000Z", "2026-01-01T00:00:00.000Z",
          .error "disk full"⟩ .onil []).saved =
      some ([] ++ [.obj (newPortfolio
        ⟨"u0", "2026-01-01T00:00:00.000Z", "2026-01-01T00:00:00.000Z",
          .error "disk full"⟩ .onil)]) ∧
    (postPortfolios
        ⟨"u0", "2026-01-01T00:00:00.000Z", "2026-01-01T00:00:00.000Z",
          .error "disk full"⟩ .onil []).persisted = [] :=
  claim_C5_write_failure_propagates
    ⟨"u0", "2026-01-01T00:00:00.000Z", "2026-01-01T00:00:00.000Z",
      .error "disk full"⟩ .onil [] "disk full" rfl

/-- Claim C6: when no record matches the id, the delete handler answers 404
with the not-found envelope, never calls the write, and the persisted
collection is exactly the one it started from. -/
theorem claim_C6_delete_not_found (id : String) (wo : Except String Unit)
    (col : List JValue) (h : ∀ r ∈ col, jsIdEq r id = false) :
    (deletePortfolioById id wo col).response =
      { status := 404, success := false, message := "Portfolio not found" } ∧
    (deletePortfolioById id wo col).saved = none ∧
    (deletePortfolioById id wo col).persisted = col := by
  have hr : removeFirst (fun r => jsIdEq r id) col = none :=
    (removeFirst_eq_none_iff _ _).mpr h
  refine ⟨?_, ?_, ?_⟩ <;> simp [deletePortfolioById, hr]

theorem claim_C6_delete_not_found_witness :
    (deletePortfolioById "zzz" (.ok ())
      [.obj (.ocons "id" (.str "a") .onil)]).response =
      { status := 404, success := false, message := "Portfolio not found" } ∧
    (deletePortfolioById "zzz" (.ok ())
      [.obj (.ocons "id" (.str "a") .onil)]).saved = none ∧
    (deletePortfolioById "zzz" (.ok ())
      [.obj (.ocons "id" (.str "a") .onil)]).persisted =
      [.obj (.ocons "id" (.str "a") .onil)] :=
  claim_C6_delete_not_found "zzz" (.ok ())
    [.obj (.ocons "id" (.str "a") .onil)] (by decide)

/-- Claim C10: the list handler is read-only — it makes no write call, leaves
the persisted collection exactly unchanged, and answers 200 with the
collection and its count. -/
theorem claim_C10_list_read_only (col : List JValue) :
    (getPortfolios col).saved = none ∧
    (getPortfolios col).persisted = col ∧
    (getPortfolios col).response.status = 200 ∧
    (getPortfolios col).response.data = some (.arr (JArray.ofList col)) ∧
    (getPortfolios col).response.count = some col.length :=
  ⟨rfl, rfl, rfl, rfl, rfl⟩

/-- Claim C2, counterexample: id uniqueness is not an invariant of the
reachable collection states — two create requests whose payloads both carry
`id: "dup"` (each with a fresh UUID and a successful write) leave the
collection with two records of the same id, because the caller's `id`
overrides the generated one. -/
theorem claim_C2_counterexample :
    ReachableCollection
      (postPortfolios
        ⟨"uuid-two", "2026-01-01T00:00:00.000Z", "2026-01-01T00:00:00.000Z",
          .ok ()⟩
        (.ocons "id" (.str "dup") .onil)
        (postPortfolios
          ⟨"uuid-one", "2026-01-01T00:00:00.000Z", "2026-01-01T00:00:00.000Z",
            .ok ()⟩
          (.ocons "id" (.str "dup") .onil) []).persisted).persisted ∧
    ¬ (((postPortfolios
        ⟨"uuid-two", "2026-01-01T00:00:00.000Z", "2026-01-01T00:00:00.000Z",
          .ok ()⟩
        (.ocons "id" (.str "dup") .onil)
        (postPortfolios
          ⟨"uuid-one", "2026-01-01T00:00:00.000Z", "2026-01-01T00:00:00.000Z",
            .ok ()⟩
          (.ocons "id" (.str "dup") .onil) []).persisted).persisted).map
      idField).Nodup := by
  exact ⟨.create _ _ _ (.create _ _ _ .start), by decide⟩

/-- Claim C2 (amended): id uniqueness is an invariant of every collection
reachable through create and delete requests, provided no create payload
carries its own `id` field and every generated UUID differs from every id
already stored. -/
theorem claim_C2_unique_ids_under_freshness (col : List JValue)
    (h : ReachableFreshIds col) : (col.map idField).Nodup := by
  induction h with
  | start => simp
  | create ctx body col hcol hbody hfresh ih =>
    cases hwo : ctx.writeOutcome with
    | error e => simpa [postPortfolios, writePortfolios, hwo] using ih
    | ok u =>
      have hp : (postPortfolios ctx body col).persisted =
          col ++ [.obj (newPortfolio ctx body)] := by
        simp [postPortfolios, writePortfolios, hwo]
      rw [hp, List.map_append]
      refine List.Nodup.append ih (by simp) ?_
      intro a ha hb
      simp only [List.map_cons, List.map_nil, List.mem_singleton] at hb
      rw [idField_newPortfolio_of_no_id ctx body hbody] at hb
      obtain ⟨r, hr, hra⟩ := List.mem_map.mp ha
      have ht : jsIdEq r ctx.uuid = true :=
        jsIdEq_of_idField r ctx.uuid (by rw [hra, hb])
      rw [hfresh r hr] at ht
      exact absurd ht (by simp)
  | remove id wo col hcol ih =>
    cases hr : removeFirst (fun r => jsIdEq r id) col with
    | none => simpa [deletePortfolioById, hr] using ih
    | some pr =>
      obtain ⟨d, rest⟩ := pr
      have hnd : (rest.map idField).Nodup :=
        List.Nodup.sublist (List.Sublist.map idField
          (removeFirst_sublist _ _ _ _ hr)) ih
      cases hwo : wo with
      | ok u => simpa [deletePortfolioById, hr, writePortfolios, hwo] using hnd
      | error e =>
        simpa [deletePortfolioById, hr, writePortfolios, hwo] using ih

theorem claim_C2_unique_ids_under_freshness_witness :
    (((postPortfolios
        ⟨"uuid-b", "2026-01-01T00:00:00.000Z", "2026-01-01T00:00:00.000Z",
          .ok ()⟩
        (.ocons "title" (.str "B") .onil)
        (postPortfolios
          ⟨"uuid-a", "2026-01-01T00:00:00.000Z", "2026-01-01T00:00:00.000Z",
            .ok ()⟩
          (.ocons "title" (.str "A") .onil) []).persisted).persisted).map
      idField).Nodup :=
  claim_C2_unique_ids_under_freshness _
    (.create _ _ _
      (.create _ _ _ .start (by decide) (by decide))
      (by decide) (by decide))

/-- Claim C7, counterexample: the create handler reads the clock twice, once
for `createdAt` and once for `updatedAt`, so a request served across a
millisecond boundary stores two different timestamps — `createdAt` and
`updatedAt` are not always equal at creation, against the claim. -/
theorem claim_C7_counterexample :
    isoTimestamp "2026-01-01T00:00:00.000Z" = true ∧
    isoTimestamp "2026-01-01T00:00:00.001Z" = true ∧
    (postPortfolios
      ⟨"uuid-7", "2026-01-01T00:00:00.000Z", "2026-01-01T00:00:00.001Z",
        .ok ()⟩
      (.ocons "title" (.str "My Site") .onil) []).response.status = 201 ∧
    (postPortfolios
      ⟨"uuid-7", "2026-01-01T00:00:00.000Z", "2026-01-01T00:00:00.001Z",
        .ok ()⟩
      (.ocons "title" (.str "My Site") .onil) []).response.data =
      some (.obj (newPortfolio
        ⟨"uuid-7", "2026-01-01T00:00:00.000Z", "2026-01-01T00:00:00.001Z",
          .ok ()⟩
        (.ocons "title" (.str "My Site") .onil))) ∧
    (newPortfolio
      ⟨"uuid-7", "2026-01-01T00:00:00.000Z", "2026-01-01T00:00:00.001Z",
        .ok ()⟩
      (.ocons "title" (.str "My Site") .onil)).getField "createdAt" ≠
    (newPortfolio
      ⟨"uuid-7", "2026-01-01T00:00:00.000Z", "2026-01-01T00:00:00.001Z",
        .ok ()⟩
      (.ocons "title" (.str "My Site") .onil)).getField "updatedAt" := by
  exact ⟨by decide, by decide, by rfl, by rfl, by decide⟩

/-- Claim C7 (amended): creating with payload `title: "My Site"` answers 201
with a record whose `id` is the generated UUID (non-empty and distinct from
every stored id whenever the UUID generator delivers that), whose `title` is
`"My Site"`, and whose `createdAt`/`updatedAt` are the two clock readings
taken during the request (valid ISO-8601 whenever the clock delivers that) —
equal to each other exactly when the two readings coincide, which the
implementation does not force, since it reads the clock once per field. -/
theorem claim_C7_create_my_site (ctx : CreateCtx) (col : List JValue)
    (hok : ctx.writeOutcome = .ok ()) (hu : ctx.uuid ≠ "")
    (hA : isoTimestamp ctx.nowA = true) (hB : isoTimestamp ctx.nowB = true)
    (hfresh : ∀ r ∈ col, jsIdEq r ctx.uuid = false) :
    (postPortfolios ctx (.ocons "title" (.str "My Site") .onil)
      col).response.status = 201 ∧
    (postPortfolios ctx (.ocons "title" (.str "My Site") .onil)
      col).response.success = true ∧
    (postPortfolios ctx (.ocons "title" (.str "My Site") .onil)
      col).response.data =
      some (.obj (newPortfolio ctx (.ocons "title" (.str "My Site") .onil))) ∧
    (newPortfolio ctx (.ocons "title" (.str "My Site") .onil)).getField "id" =
      some (.str ctx.uuid) ∧
    ctx.uuid ≠ "" ∧
    (∀ r ∈ col, idField r ≠ some (.str ctx.uuid)) ∧
    (newPortfolio ctx
      (.ocons "title" (.str "My Site") .onil)).getField "title" =
      some (.str "My Site") ∧
    (newPortfolio ctx
      (.ocons "title" (.str "My Site") .onil)).getField "createdAt" =
      some (.str ctx.nowA) ∧
    isoTimestamp ctx.nowA = true ∧
    (newPortfolio ctx
      (.ocons "title" (.str "My Site") .onil)).getField "updatedAt" =
      some (.str ctx.nowB) ∧
    isoTimestamp ctx.nowB = true ∧
    (ctx.nowA = ctx.nowB →
      (newPortfolio ctx
        (.ocons "title" (.str "My Site") .onil)).getField "createdAt" =
      (newPortfolio ctx
        (.ocons "title" (.str "My Site") .onil)).getField "updatedAt") := by
  refine ⟨by simp [postPortfolios, writePortfolios, hok],
    by simp [postPortfolios, writePortfolios, hok],
    by simp [postPortfolios, writePortfolios, hok],
    (newPortfolio_getField_id ctx _).1 (by decide), hu, ?_, ?_,
    newPortfolio_getField_createdAt ctx _, hA,
    newPortfolio_getField_updatedAt ctx _, hB, ?_⟩
  · intro r hr heq
    have ht : jsIdEq r ctx.uuid = true := jsIdEq_of_idField r ctx.uuid heq
    rw [hfresh r hr] at ht
    exact absurd ht (by simp)
  · unfold newPortfolio
    rw [JObject.getField_setField_of_ne _ _ _ _ (by decide),
      JObject.getField_setField_of_ne _ _ _ _ (by decide),
      spreadInto_getField_of_getField _ _ _ (JValue.str "My Site")
        (by decide) (by decide)]
  · intro heq
    rw [newPortfolio_getField_createdAt ctx _,
      newPortfolio_getField_updatedAt ctx _, heq]

theorem claim_C7_create_my_site_witness :
    (postPortfolios
      ⟨"uuid-w", "2026-01-01T00:00:00.000Z", "2026-01-01T00:00:00.000Z",
        .ok ()⟩
      (.ocons "title" (.str "My Site") .onil) []).response.status = 201 ∧
    (postPortfolios
      ⟨"uuid-w", "2026-01-01T00:00:00.000Z", "2026-01-01T00:00:00.000Z",
        .ok ()⟩
      (.ocons "title" (.str "My Site") .onil) []).response.success = true ∧
    (postPortfolios
      ⟨"uuid-w", "2026-01-01T00:00:00.000Z", "2026-01-01T00:00:00.000Z",
        .ok ()⟩
      (.ocons "title" (.str "My Site") .onil) []).response.data =
      some (.obj (newPortfolio
        ⟨"uuid-w", "2026-01-01T00:00:00.000Z", "2026-01-01T00:00:00.000Z",
          .ok ()⟩
        (.ocons "title" (.str "My Site") .onil))) ∧
    (newPortfolio
      ⟨"uuid-w", "2026-01-01T00:00:00.000Z", "2026-01-01T00:00:00.000Z",
        .ok ()⟩
      (.ocons "title" (.str "My Site") .onil)).getField "id" =
      some (.str "uuid-w") ∧
    ("uuid-w" : String) ≠ "" ∧
    (∀ r ∈ ([] : List JValue), idField r ≠ some (.str "uuid-w")) ∧
    (newPortfolio
      ⟨"uuid-w", "2026-01-01T00:00:00.000Z", "2026-01-01T00:00:00.000Z",
        .ok ()⟩
      (.ocons "title" (.str "My Site") .onil)).getField "title" =
      some (.str "My Site") ∧
    (newPortfolio
      ⟨"uuid-w", "2026-01-01T00:00:00.000Z", "2026-01-01T00:00:00.000Z",
        .ok ()⟩
      (.ocons "title" (.str "My Site") .onil)).getField "createdAt" =
      some (.str "2026-01-01T00:00:00.000Z") ∧
    isoTimestamp "2026-01-01T00:00:00.000Z" = true ∧
    (newPortfolio
      ⟨"uuid-w", "2026-01-01T00:00:00.000Z", "2026-01-01T00:00:00.000Z",
        .ok ()⟩
      (.ocons "title" (.str "My Site") .onil)).getField "updatedAt" =
      some (.str "2026-01-01T00:00:00.000Z") ∧
    isoTimestamp "2026-01-01T00:00:00.000Z" = true ∧
    (("2026-01-01T00:00:00.000Z" : String) = "2026-01-01T00:00:00.000Z" →
      (newPortfolio
        ⟨"uuid-w", "2026-01-01T00:00:00.000Z", "2026-01-01T00:00:00.000Z",
          .ok ()⟩
        (.ocons "title" (.str "My Site") .onil)).getField "createdAt" =
      (newPortfolio
        ⟨"uuid-w", "2026-01-01T00:00:00.000Z", "2026-01-01T00:00:00.000Z",
          .ok ()⟩
        (.ocons "title" (.str "My Site") .onil)).getField "updatedAt") :=
  claim_C7_create_my_site
    ⟨"uuid-w", "2026-01-01T00:00:00.000Z", "2026-01-01T00:00:00.000Z",
      .ok ()⟩
    [] rfl (by decide) (by decide) (by decide) (by decide)

/-- Claim C8: create appends at the end and list preserves insertion order —
in general a successful create persists exactly the old collection with the
new record appended; starting empty, creating A then B lists A's record then
B's record with count 2; and the list response's count always equals the
number of records in its data array. -/
theorem claim_C8_append_order_count (ctxA ctxB : CreateCtx)
    (bodyA bodyB : JObject) (col : List JValue)
    (hA : ctxA.writeOutcome = .ok ()) (hB : ctxB.writeOutcome = .ok ()) :
    (postPortfolios ctxA bodyA col).persisted =
      col ++ [.obj (newPortfolio ctxA bodyA)] ∧
    (postPortfolios ctxB bodyB
        (postPortfolios ctxA bodyA []).persisted).persisted =
      [.obj (newPortfolio ctxA bodyA), .obj (newPortfolio ctxB bodyB)] ∧
    (getPortfolios (postPortfolios ctxB bodyB
        (postPortfolios ctxA bodyA []).persisted).persisted).response.data =
      some (.arr (.acons (.obj (newPortfolio ctxA bodyA))
        (.acons (.obj (newPortfolio ctxB bodyB)) .anil))) ∧
    (getPortfolios (postPortfolios ctxB bodyB
        (postPortfolios ctxA bodyA []).persisted).persisted).response.count =
      some 2 ∧
    (∀ c : List JValue, ∃ a : JArray,
      (getPortfolios c).response.data = some (.arr a) ∧
      (getPortfolios c).response.count = some a.toList.length) := by
  refine ⟨by simp [postPortfolios, writePortfolios, hA],
    by simp [postPortfolios, writePortfolios, hA, hB],
    by simp [postPortfolios, writePortfolios, hA, hB, getPortfolios,
      JArray.ofList],
    by simp [postPortfolios, writePortfolios, hA, hB, getPortfolios],
    fun c => ⟨JArray.ofList c, rfl, by
      simp [getPortfolios, JArray.toList_ofList]⟩⟩

theorem claim_C8_append_order_count_witness :
    (postPortfolios ⟨"uuid-a", "tA", "tA", .ok ()⟩
      (.ocons "title" (.str "A") .onil) []).persisted =
      [] ++ [.obj (newPortfolio ⟨"uuid-a", "tA", "tA", .ok ()⟩
        (.ocons "title" (.str "A") .onil))] ∧
    (postPortfolios ⟨"uuid-b", "tB", "tB", .ok ()⟩
        (.ocons "title" (.str "B") .onil)
        (postPortfolios ⟨"uuid-a", "tA", "tA", .ok ()⟩
          (.ocons "title" (.str "A") .onil) []).persisted).persisted =
      [.obj (newPortfolio ⟨"uuid-a", "tA", "tA", .ok ()⟩
        (.ocons "title" (.str "A") .onil)),
       .obj (newPortfolio ⟨"uuid-b", "tB", "tB", .ok ()⟩
        (.ocons "title" (.str "B") .onil))] ∧
    (getPortfolios (postPortfolios ⟨"uuid-b", "tB", "tB", .ok ()⟩
        (.ocons "title" (.str "B") .onil)
        (postPortfolios ⟨"uuid-a", "tA", "tA", .ok ()⟩
          (.ocons "title" (.str "A") .onil) []).persisted).persisted
      ).response.data =
      some (.arr (.acons (.obj (newPortfolio ⟨"uuid-a", "tA", "tA", .ok ()⟩
          (.ocons "title" (.str "A") .onil)))
        (.acons (.obj (newPortfolio ⟨"uuid-b", "tB", "tB", .ok ()⟩
          (.ocons "title" (.str "B") .onil))) .anil))) ∧
    (getPortfolios (postPortfolios ⟨"uuid-b", "tB", "tB", .ok ()⟩
        (.ocons "title" (.str "B") .onil)
        (postPortfolios ⟨"uuid-a", "tA", "tA", .ok ()⟩
          (.ocons "title" (.str "A") .onil) []).persisted).persisted
      ).response.count = some 2 ∧
    (∀ c : List JValue, ∃ a : JArray,
      (getPortfolios c).response.data = some (.arr a) ∧
      (getPortfolios c).response.count = some a.toList.length) :=
  claim_C8_append_order_count ⟨"uuid-a", "tA", "tA", .ok ()⟩
    ⟨"uuid-b", "tB", "tB", .ok ()⟩
    (.ocons "title" (.str "A") .onil) (.ocons "title" (.str "B") .onil)
    [] rfl rfl

/-! ## Roundtrip machinery: whitespace and digit runs -/

theorem dropWs_append_of_ws (ws x : List Char)
    (h : ∀ c ∈ ws, isJsonWs c = true) : dropWs (ws ++ x) = dropWs x := by
  induction ws with
  | nil => rfl
  | cons c cs ih =>
    have hc := h c (by simp)
    simp only [List.cons_append, dropWs, hc, if_true]
    exact ih fun c2 h2 => h c2 (by simp [h2])

theorem dropWs_cons_of_not_ws (c : Char) (x : List Char)
    (h : isJsonWs c = false) : dropWs (c :: x) = c :: x := by
  simp [dropWs, h]

theorem indentChars_ws (k : Nat) : ∀ c ∈ indentChars k, isJsonWs c = true := by
  intro c hc
  rw [indentChars, List.mem_replicate] at hc
  rw [hc.2]
  decide

theorem dropWs_lf (x : List Char) : dropWs ('\n' :: x) = dropWs x := by
  simp [dropWs, isJsonWs]

theorem dropWs_indent (k : Nat) (x : List Char) :
    dropWs (indentChars k ++ x) = dropWs x :=
  dropWs_append_of_ws _ _ (indentChars_ws k)

theorem afterNumberOk_comma (x : List Char) :
    afterNumberOk (',' :: x) = true := rfl

theorem afterNumberOk_lf (x : List Char) :
    afterNumberOk ('\n' :: x) = true := rfl

theorem afterNumberOk_rbracket (x : List Char) :
    afterNumberOk (']' :: x) = true := rfl

theorem afterNumberOk_rbrace (x : List Char) :
    afterNumberOk ('\x7d' :: x) = true := rfl

theorem isDigitCh_decDigitChar : ∀ m < 10, isDigitCh (decDigitChar m) = true := by
  decide

theorem decDigitChar_toNat : ∀ m < 10, (decDigitChar m).toNat - 48 = m := by
  decide

theorem natDecimalAux_fuel (n : Nat) :
    ∀ f g, n < f → n < g → natDecimalAux f n = natDecimalAux g n := by
  induction n using Nat.strongRecOn with
  | _ n ih =>
    intro f g hf hg
    cases f with
    | zero => omega
    | succ f1 =>
      cases g with
      | zero => omega
      | succ g1 =>
        by_cases h10 : n < 10
        · simp [natDecimalAux, h10]
        · have hd : n / 10 < n := Nat.div_lt_self (by omega) (by omega)
          simp only [natDecimalAux, if_neg h10]
          rw [ih (n / 10) hd f1 g1 (by omega) (by omega)]

theorem natDecimal_unfold (n : Nat) :
    natDecimal n = if n < 10 then [decDigitChar n]
      else natDecimal (n / 10) ++ [decDigitChar (n % 10)] := by
  by_cases h10 : n < 10
  · simp [natDecimal, natDecimalAux, h10]
  · have hd : n / 10 < n := Nat.div_lt_self (by omega) (by omega)
    have step : natDecimalAux (n + 1) n
        = natDecimalAux n (n / 10) ++ [decDigitChar (n % 10)] := by
      simp only [natDecimalAux, if_neg h10]
    rw [if_neg h10, natDecimal, natDecimal, step,
      natDecimalAux_fuel (n / 10) n (n / 10 + 1) hd (by omega)]

theorem natDecimal_ne_nil (n : Nat) : natDecimal n ≠ [] := by
  rw [natDecimal_unfold]
  by_cases h : n < 10 <;> simp [h]

theorem natDecimal_digits (n : Nat) :
    ∀ c ∈ natDecimal n, isDigitCh c = true := by
  induction n using Nat.strongRecOn with
  | _ n ih =>
    rw [natDecimal_unfold]
    by_cases h10 : n < 10
    · simp only [if_pos h10, List.mem_singleton]
      intro c hc
      rw [hc]
      exact isDigitCh_decDigitChar n h10
    · simp only [if_neg h10]
      intro c hc
      rcases List.mem_append.mp hc with h1 | h2
      · exact ih (n / 10) (Nat.div_lt_self (by omega) (by omega)) c h1
      · rw [List.mem_singleton] at h2
        rw [h2]
        exact isDigitCh_decDigitChar (n % 10) (Nat.mod_lt _ (by omega))

theorem digitsVal_append_digit (ds : List Char) (c : Char) :
    digitsVal (ds ++ [c]) = digitsVal ds * 10 + (c.toNat - 48) := by
  simp [digitsVal, List.foldl_append]

theorem digitsVal_natDecimal (n : Nat) : digitsVal (natDecimal n) = n := by
  induction n using Nat.strongRecOn with
  | _ n ih =>
    rw [natDecimal_unfold]
    by_cases h10 : n < 10
    · simp only [if_pos h10]
      have := decDigitChar_toNat n h10
      simp [digitsVal]
      omega
    · simp only [if_neg h10, digitsVal_append_digit]
      rw [ih (n / 10) (Nat.div_lt_self (by omega) (by omega))]
      have := decDigitChar_toNat (n % 10) (Nat.mod_lt _ (by omega))
      omega

theorem digitRun_stop (cs : List Char) (h : afterNumberOk cs = true) :
    digitRun cs = ([], cs) := by
  cases cs with
  | nil => rfl
  | cons c t =>
    have hc : isDigitCh c = false := by
      by_contra hcon
      simp [afterNumberOk, Bool.not_eq_true] at h
      rw [Bool.not_eq_false] at hcon
      simp [hcon] at h
    simp [digitRun, hc]

theorem digitRun_run (ds rest : List Char)
    (hds : ∀ c ∈ ds, isDigitCh c = true) (hrest : digitRun rest = ([], rest)) :
    digitRun (ds ++ rest) = (ds, rest) := by
  induction ds with
  | nil => simpa using hrest
  | cons c t ih =>
    have hc := hds c (by simp)
    have ht := ih fun c2 h2 => hds c2 (by simp [h2])
    simp [digitRun, hc, ht]

/-! ## Roundtrip machinery: strings and numbers -/

theorem hexDigitVal_hexDigitChar : ∀ m < 16, hexDigitVal (hexDigitChar m) = some m := by
  decide

theorem parseStrBody_escape (c : Char) (acc rest : List Char) :
    parseStrBody acc (escapeJsonChar c ++ rest) = parseStrBody (c :: acc) rest := by
  simp only [escapeJsonChar]
  split
  · rfl
  · rfl
  · rfl
  · rfl
  · rfl
  · rename_i h1 h2 h3 h4 h5
    by_cases hb : c.toNat = 8
    · have hc : c = Char.ofNat 8 := by rw [← hb, Char.ofNat_toNat]
      rw [if_pos (show (c.toNat == 8) = true by simp [hb])]
      simp only [List.cons_append, List.nil_append]
      show parseStrBody (Char.ofNat 8 :: acc) rest = parseStrBody (c :: acc) rest
      rw [hc]
    · by_cases hf : c.toNat = 12
      · have hc : c = Char.ofNat 12 := by rw [← hf, Char.ofNat_toNat]
        rw [if_neg (show ¬(c.toNat == 8) = true by simp [hb]),
          if_pos (show (c.toNat == 12) = true by simp [hf])]
        simp only [List.cons_append, List.nil_append]
        show parseStrBody (Char.ofNat 12 :: acc) rest = parseStrBody (c :: acc) rest
        rw [hc]
      · by_cases hlt : c.toNat < 32
        · rw [if_neg (show ¬(c.toNat == 8) = true by simp [hb]),
            if_neg (show ¬(c.toNat == 12) = true by simp [hf]), if_pos hlt]
          simp only [List.cons_append, List.nil_append]
          have h16a : c.toNat / 16 < 16 := by omega
          have h16b : c.toNat % 16 < 16 := Nat.mod_lt _ (by omega)
          simp only [parseStrBody, show hexDigitVal '0' = some 0 from rfl,
            hexDigitVal_hexDigitChar _ h16a, hexDigitVal_hexDigitChar _ h16b]
          rw [show ((0 * 16 + 0) * 16 + c.toNat / 16) * 16 + c.toNat % 16
              = c.toNat from by omega, Char.ofNat_toNat]
        · rw [if_neg (show ¬(c.toNat == 8) = true by simp [hb]),
            if_neg (show ¬(c.toNat == 12) = true by simp [hf]), if_neg hlt]
          simp only [List.cons_append, List.nil_append]
          rw [parseStrBody.eq_def]
          have h1a : c ≠ '"' := h2
          have h2a : c ≠ '\\' := h1
          simp [h1a, h2a]

theorem parseStrBody_flatMap (cs : List Char) : ∀ (acc rest : List Char),
    parseStrBody acc (cs.flatMap escapeJsonChar ++ '"' :: rest)
      = .ok (String.mk (acc.reverse ++ cs), rest) := by
  induction cs with
  | nil =>
    intro acc rest
    simp [parseStrBody]
  | cons c cs ih =>
    intro acc rest
    rw [List.flatMap_cons, List.append_assoc, parseStrBody_escape, ih]
    simp

theorem parseStrBody_quote (s : String) (rest : List Char) :
    parseStrBody [] (s.data.flatMap escapeJsonChar ++ '"' :: rest)
      = .ok (s, rest) := by
  rw [parseStrBody_flatMap]
  cases s with
  | mk data => rfl

theorem isDigitCh_bounds (c : Char) (h : isDigitCh c = true) :
    48 ≤ c.toNat ∧ c.toNat ≤ 57 := by
  simpa [isDigitCh, Bool.and_eq_true, decide_eq_true_eq] using h

theorem digit_head_facts (c : Char) (h : isDigitCh c = true) :
    c ≠ '-' ∧ c ≠ 'n' ∧ c ≠ 't' ∧ c ≠ 'f' ∧ c ≠ '"' ∧ c ≠ '[' ∧
    c ≠ '\x7b' ∧ c ≠ ']' ∧ c ≠ '\x7d' ∧ isJsonWs c = false := by
  have w1 : c ≠ ' ' := fun heq => by rw [heq] at h; exact absurd h (by decide)
  have w2 : c ≠ '\t' := fun heq => by rw [heq] at h; exact absurd h (by decide)
  have w3 : c ≠ '\n' := fun heq => by rw [heq] at h; exact absurd h (by decide)
  have w4 : c ≠ '\r' := fun heq => by rw [heq] at h; exact absurd h (by decide)
  refine ⟨?_, ?_, ?_, ?_, ?_, ?_, ?_, ?_, ?_, by simp [isJsonWs, w1, w2, w3, w4]⟩
  all_goals exact fun heq => by rw [heq] at h; exact absurd h (by decide)

theorem natDecimal_cons (n : Nat) :
    ∃ c t, natDecimal n = c :: t ∧ isDigitCh c = true := by
  cases h : natDecimal n with
  | nil => exact absurd h (natDecimal_ne_nil n)
  | cons c t => exact ⟨c, t, rfl, natDecimal_digits n c (by rw [h]; simp)⟩

theorem afterNumberOk_head (c : Char) (t : List Char)
    (h : afterNumberOk (c :: t) = true) :
    isDigitCh c = false ∧ c ≠ '.' ∧ c ≠ 'e' ∧ c ≠ 'E' := by
  simp only [afterNumberOk, Bool.not_eq_true', Bool.or_eq_false_iff,
    beq_eq_false_iff_ne] at h
  exact ⟨h.1.1.1, h.1.1.2, h.1.2, h.2⟩

theorem parseIntTok_intDecimal (n : Int) (rest : List Char)
    (hrest : afterNumberOk rest = true) :
    parseIntTok (intDecimal n ++ rest) = .ok (n, rest) := by
  have hrun : digitRun (natDecimal n.natAbs ++ rest)
      = (natDecimal n.natAbs, rest) :=
    digitRun_run _ _ (natDecimal_digits _) (digitRun_stop _ hrest)
  have hne : (natDecimal n.natAbs).isEmpty = false := by
    cases hh : natDecimal n.natAbs with
    | nil => exact absurd hh (natDecimal_ne_nil _)
    | cons c t => rfl
  by_cases hn : n < 0
  · have harg : intDecimal n ++ rest = '-' :: (natDecimal n.natAbs ++ rest) := by
      simp [intDecimal, hn]
    rw [harg]
    simp only [parseIntTok, hrun, hne]
    cases rest with
    | nil =>
      simp [digitsVal_natDecimal, -Int.natCast_natAbs]
      omega
    | cons c t =>
      obtain ⟨hdig, hdot, he, hE⟩ := afterNumberOk_head c t hrest
      simp [hdot, he, hE, digitsVal_natDecimal, -Int.natCast_natAbs]
      omega
  · obtain ⟨c0, t0, hc0, hdig0⟩ := natDecimal_cons n.natAbs
    obtain ⟨hm, -, -, -, -, -, -, -, -, -⟩ := digit_head_facts c0 hdig0
    have harg : intDecimal n ++ rest = c0 :: (t0 ++ rest) := by
      simp [intDecimal, hn, hc0]
    have hrun2 : digitRun (c0 :: (t0 ++ rest)) = (c0 :: t0, rest) := by
      have h2 := hrun
      rw [hc0] at h2
      simpa using h2
    have hval : digitsVal (c0 :: t0) = n.natAbs := by
      rw [← hc0, digitsVal_natDecimal]
    rw [harg]
    cases rest with
    | nil =>
      have hrun3 : digitRun (c0 :: t0) = (c0 :: t0, []) := by
        simpa using hrun2
      simp [parseIntTok, hm, hrun3, hval, -Int.natCast_natAbs]
      omega
    | cons c t =>
      obtain ⟨hdig, hdot, he, hE⟩ := afterNumberOk_head c t hrest
      simp [parseIntTok, hm, hrun2, hdot, he, hE, hval, -Int.natCast_natAbs]
      omega

/-! ## Roundtrip machinery: printed shapes -/

theorem JArray.arrSpineInd {P : JArray → Prop} (base : P .anil)
    (step : ∀ v rest, P rest → P (.acons v rest)) : ∀ a, P a
  | .anil => base
  | .acons v rest => step v rest (arrSpineInd base step rest)

theorem ppValue_head (k : Nat) (v : JValue) :
    ∃ c t, ppValue k v = c :: t ∧ isJsonWs c = false ∧ c ≠ ']' ∧ c ≠ '\x7d' := by
  cases v with
  | null => exact ⟨'n', _, rfl, rfl, by decide, by decide⟩
  | bool b =>
    cases b with
    | true => exact ⟨'t', _, rfl, rfl, by decide, by decide⟩
    | false => exact ⟨'f', _, rfl, rfl, by decide, by decide⟩
  | num n =>
    by_cases hn : n < 0
    · refine ⟨'-', natDecimal n.natAbs, ?_, by decide, by decide, by decide⟩
      simp [ppValue, intDecimal, hn]
    · obtain ⟨c0, t0, hc0, hd0⟩ := natDecimal_cons n.natAbs
      obtain ⟨-, -, -, -, -, -, -, hrb, hrc, hws⟩ := digit_head_facts c0 hd0
      refine ⟨c0, t0, ?_, hws, hrb, hrc⟩
      simp [ppValue, intDecimal, hn, hc0]
  | str s => exact ⟨'"', _, rfl, rfl, by decide, by decide⟩
  | arr a =>
    cases a with
    | anil => exact ⟨'[', _, rfl, rfl, by decide, by decide⟩
    | acons w rest => exact ⟨'[', _, rfl, rfl, by decide, by decide⟩
  | obj o =>
    cases o with
    | onil => exact ⟨'\x7b', _, rfl, rfl, by decide, by decide⟩
    | ocons key w rest => exact ⟨'\x7b', _, rfl, rfl, by decide, by decide⟩

theorem dropWs_ppValue (k : Nat) (v : JValue) (x : List Char) :
    dropWs (ppValue k v ++ x) = ppValue k v ++ x := by
  obtain ⟨c, t, hct, hws, -, -⟩ := ppValue_head k v
  rw [hct, List.cons_append, dropWs_cons_of_not_ws _ _ hws]

theorem ppValue_length_pos (k : Nat) (v : JValue) : 1 ≤ (ppValue k v).length := by
  obtain ⟨c, t, hct, -, -, -⟩ := ppValue_head k v
  simp [hct]

theorem itemsTail_afterNumberOk (k : Nat) (a : JArray) (out : List Char) :
    afterNumberOk (itemsTail k a out) = true := by
  cases a with
  | anil => rfl
  | acons w rest => rfl

theorem fieldsTail_afterNumberOk (k : Nat) (o : JObject) (out : List Char) :
    afterNumberOk (fieldsTail k o out) = true := by
  cases o with
  | onil => rfl
  | ocons key v rest => rfl

theorem ppItems_decomp (k : Nat) (out : List Char) (a : JArray) :
    ∀ w : JValue,
      ppItems k (.acons w a) ++ '\n' :: (indentChars k ++ ']' :: out)
        = indentChars (k + 1) ++ (ppValue (k + 1) w ++ itemsTail k a out) := by
  induction a using JArray.arrSpineInd with
  | base =>
    intro w
    simp [ppItems, itemsTail, List.append_assoc]
  | step w2 rest ih =>
    intro w
    have ih2 := ih w2
    simp only [ppItems, itemsTail, List.cons_append, List.append_assoc] at ih2 ⊢
    rw [ih2]

theorem ppFields_decomp (k : Nat) (out : List Char) (o : JObject) :
    ∀ (key : String) (v : JValue),
      ppFields k (.ocons key v o) ++ '\n' :: (indentChars k ++ '\x7d' :: out)
        = indentChars (k + 1) ++ (quoteChars key ++ ':' :: ' ' ::
            (ppValue (k + 1) v ++ fieldsTail k o out)) := by
  induction o using JObject.objSpineInd with
  | base =>
    intro key v
    simp [ppFields, fieldsTail, List.append_assoc]
  | step key2 v2 rest ih =>
    intro key v
    have ih2 := ih key2 v2
    simp only [ppFields, fieldsTail, List.cons_append, List.append_assoc] at ih2 ⊢
    rw [ih2]

theorem JObject.hasKey_setField (o : JObject) (k k2 : String) (v : JValue) :
    (o.setField k v).hasKey k2 = (k == k2 || o.hasKey k2) := by
  induction o using JObject.objSpineInd with
  | base => simp [setField, hasKey]
  | step key w rest ih =>
    by_cases hk : key = k
    · subst hk
      cases h2 : (key == k2) <;> simp [setField, hasKey, h2]
    · cases h2 : (key == k2) <;> cases h3 : (k == k2) <;>
        simp [setField, hasKey, hk, h2, h3, ih]

theorem JObject.setField_oappend (o : JObject) (k : String) (v : JValue)
    (h : o.hasKey k = false) :
    o.setField k v = o.oappend (.ocons k v .onil) := by
  induction o using JObject.objSpineInd with
  | base => simp [setField, oappend]
  | step key w rest ih =>
    simp only [hasKey, Bool.or_eq_false_iff, beq_eq_false_iff_ne] at h
    simp [setField, oappend, h.1, ih h.2]

theorem JObject.oappend_assoc (a b c : JObject) :
    (a.oappend b).oappend c = a.oappend (b.oappend c) := by
  induction a using JObject.objSpineInd with
  | base => rfl
  | step key w rest ih => simp [oappend, ih]

theorem parseJVal_dropWs (f : Nat) (ws x : List Char)
    (h : ∀ c ∈ ws, isJsonWs c = true) :
    parseJVal (f + 1) (ws ++ x) = parseJVal (f + 1) x := by
  simp only [parseJVal]
  rw [dropWs_append_of_ws _ _ h]

theorem parseJVal_num_step (f : Nat) (c0 : Char) (t : List Char)
    (hws : isJsonWs c0 = false) (hn : c0 ≠ 'n') (ht : c0 ≠ 't')
    (hf : c0 ≠ 'f') (hq : c0 ≠ '"') (hlb : c0 ≠ '[') (hob : c0 ≠ '\x7b')
    (hg : (c0 == '-' || isDigitCh c0) = true) :
    parseJVal (f + 1) (c0 :: t) =
      (match parseIntTok (c0 :: t) with
       | .ok (n, r1) => .ok (.num n, r1)
       | .error e => .error e) := by
  simp only [parseJVal]
  rw [dropWs_cons_of_not_ws _ _ hws]
  simp [hn, ht, hf, hq, hlb, hob, hg]

theorem parseJVal_num (n : Int) (f : Nat) (rest : List Char)
    (hrest : afterNumberOk rest = true) :
    parseJVal (f + 1) (intDecimal n ++ rest) = .ok (.num n, rest) := by
  by_cases hn : n < 0
  · have harg : intDecimal n ++ rest = '-' :: (natDecimal n.natAbs ++ rest) := by
      simp [intDecimal, hn]
    rw [harg, parseJVal_num_step f '-' _ (by decide) (by decide) (by decide)
      (by decide) (by decide) (by decide) (by decide) (by decide), ← harg,
      parseIntTok_intDecimal n rest hrest]
  · obtain ⟨c0, t0, hc0, hd0⟩ := natDecimal_cons n.natAbs
    obtain ⟨hm, hn2, ht2, hf2, hq2, hlb2, hob2, -, -, hws2⟩ :=
      digit_head_facts c0 hd0
    have harg : intDecimal n ++ rest = c0 :: (t0 ++ rest) := by
      simp [intDecimal, hn, hc0]
    rw [harg, parseJVal_num_step f c0 _ hws2 hn2 ht2 hf2 hq2 hlb2 hob2
      (by simp [hd0]), ← harg, parseIntTok_intDecimal n rest hrest]

theorem parseJVal_null_step (f : Nat) (x : List Char) :
    parseJVal (f + 1) ('n' :: 'u' :: 'l' :: 'l' :: x) = .ok (.null, x) := by
  simp only [parseJVal]
  rw [dropWs_cons_of_not_ws _ _ (by decide)]
  rfl

theorem parseJVal_true_step (f : Nat) (x : List Char) :
    parseJVal (f + 1) ('t' :: 'r' :: 'u' :: 'e' :: x) = .ok (.bool true, x) := by
  simp only [parseJVal]
  rw [dropWs_cons_of_not_ws _ _ (by decide)]
  rfl

theorem parseJVal_false_step (f : Nat) (x : List Char) :
    parseJVal (f + 1) ('f' :: 'a' :: 'l' :: 's' :: 'e' :: x)
      = .ok (.bool false, x) := by
  simp only [parseJVal]
  rw [dropWs_cons_of_not_ws _ _ (by decide)]
  rfl

theorem parseJVal_str_step (f : Nat) (x : List Char) :
    parseJVal (f + 1) ('"' :: x) =
      (match parseStrBody [] x with
       | .ok (s1, r1) => .ok (.str s1, r1)
       | .error e => .error e) := by
  simp only [parseJVal]
  rw [dropWs_cons_of_not_ws _ _ (by decide)]
  rfl

theorem parseJVal_arr_step (f : Nat) (x : List Char) :
    parseJVal (f + 1) ('[' :: x) =
      (match dropWs x with
       | [] => .error "unexpected end of input"
       | c :: r1 =>
         if c = ']' then .ok (.arr .anil, r1)
         else
           match parseJItems f (c :: r1) with
           | .ok (items, r2) => .ok (.arr items, r2)
           | .error e => .error e) := by
  simp only [parseJVal]
  rw [dropWs_cons_of_not_ws _ _ (by decide)]
  rfl

theorem parseJVal_obj_step (f : Nat) (x : List Char) :
    parseJVal (f + 1) ('\x7b' :: x) =
      (match dropWs x with
       | [] => .error "unexpected end of input"
       | c :: r1 =>
         if c = '\x7d' then .ok (.obj .onil, r1)
         else
           match parseJFields f .onil (c :: r1) with
           | .ok (fields, r2) => .ok (.obj fields, r2)
           | .error e => .error e) := by
  simp only [parseJVal]
  rw [dropWs_cons_of_not_ws _ _ (by decide)]
  rfl

mutual
theorem rtValue : ∀ (v : JValue) (k fuel : Nat) (ws rest : List Char),
    (∀ c ∈ ws, isJsonWs c = true) → wfValue v = true →
    (ppValue k v).length < fuel → afterNumberOk rest = true →
    parseJVal fuel (ws ++ (ppValue k v ++ rest)) = .ok (v, rest)
  | .null, k, fuel, ws, rest, hws, hwf, hfu, hrest => by
    cases fuel with
    | zero => exact absurd hfu (Nat.not_lt_zero _)
    | succ f =>
      rw [parseJVal_dropWs f ws _ hws]
      exact parseJVal_null_step f rest
  | .bool true, k, fuel, ws, rest, hws, hwf, hfu, hrest => by
    cases fuel with
    | zero => exact absurd hfu (Nat.not_lt_zero _)
    | succ f =>
      rw [parseJVal_dropWs f ws _ hws]
      exact parseJVal_true_step f rest
  | .bool false, k, fuel, ws, rest, hws, hwf, hfu, hrest => by
    cases fuel with
    | zero => exact absurd hfu (Nat.not_lt_zero _)
    | succ f =>
      rw [parseJVal_dropWs f ws _ hws]
      exact parseJVal_false_step f rest
  | .num n, k, fuel, ws, rest, hws, hwf, hfu, hrest => by
    cases fuel with
    | zero => exact absurd hfu (Nat.not_lt_zero _)
    | succ f =>
      rw [parseJVal_dropWs f ws _ hws]
      exact parseJVal_num n f rest hrest
  | .str s, k, fuel, ws, rest, hws, hwf, hfu, hrest => by
    cases fuel with
    | zero => exact absurd hfu (Nat.not_lt_zero _)
    | succ f =>
      rw [parseJVal_dropWs f ws _ hws]
      have harg : ppValue k (JValue.str s) ++ rest
          = '"' :: (s.data.flatMap escapeJsonChar ++ '"' :: rest) := by
        simp [ppValue, quoteChars]
      rw [harg, parseJVal_str_step, parseStrBody_quote s rest]
  | .arr .anil, k, fuel, ws, rest, hws, hwf, hfu, hrest => by
    cases fuel with
    | zero => exact absurd hfu (Nat.not_lt_zero _)
    | succ f =>
      rw [parseJVal_dropWs f ws _ hws]
      have harg : ppValue k (JValue.arr .anil) ++ rest = '[' :: ']' :: rest := rfl
      rw [harg, parseJVal_arr_step,
        dropWs_cons_of_not_ws _ _ (show isJsonWs ']' = false by decide)]
      rfl
  | .arr (.acons w a2), k, fuel, ws, rest, hws, hwf, hfu, hrest => by
    cases fuel with
    | zero => exact absurd hfu (Nat.not_lt_zero _)
    | succ f =>
      rw [parseJVal_dropWs f ws _ hws]
      have hwf2 : wfValue w = true ∧ wfArray a2 = true := by
        simpa [wfValue, wfArray, Bool.and_eq_true] using hwf
      have harg : ppValue k (JValue.arr (.acons w a2)) ++ rest
          = '[' :: '\n' :: (ppItems k (.acons w a2) ++ '\n' ::
              (indentChars k ++ ']' :: rest)) := by
        simp [ppValue, List.append_assoc]
      obtain ⟨c, t, hct, hcws, hcrb, -⟩ := ppValue_head (k + 1) w
      have hX : dropWs ('\n' :: (ppItems k (.acons w a2) ++ '\n' ::
          (indentChars k ++ ']' :: rest))) = c :: (t ++ itemsTail k a2 rest) := by
        rw [dropWs_lf, ppItems_decomp k rest a2 w, dropWs_indent, dropWs_ppValue,
          hct, List.cons_append]
      have hlen : (ppItems k (.acons w a2)).length + 1 < f := by
        simp only [ppValue, List.length_cons, List.length_append,
          List.length_replicate] at hfu
        omega
      have hitems : parseJItems f (ppValue (k + 1) w ++ itemsTail k a2 rest)
          = .ok (.acons w a2, rest) := by
        have h := rtItems w a2 k f [] rest (by intro c2 hc2; simp at hc2)
          hwf2.1 hwf2.2 hlen
        simpa using h
      rw [harg, parseJVal_arr_step, hX]
      have hstep : (match (c :: (t ++ itemsTail k a2 rest) : List Char) with
          | [] => (.error "unexpected end of input" :
              Except String (JValue × List Char))
          | c1 :: r1 =>
            if c1 = ']' then .ok (.arr .anil, r1)
            else
              match parseJItems f (c1 :: r1) with
              | .ok (items, r2) => .ok (.arr items, r2)
              | .error e => .error e)
          = (match parseJItems f (c :: (t ++ itemsTail k a2 rest)) with
             | .ok (items, r2) => .ok (.arr items, r2)
             | .error e => .error e) := if_neg hcrb
      rw [hstep, show c :: (t ++ itemsTail k a2 rest)
          = ppValue (k + 1) w ++ itemsTail k a2 rest from by
        rw [hct, List.cons_append], hitems]
  | .obj .onil, k, fuel, ws, rest, hws, hwf, hfu, hrest => by
    cases fuel with
    | zero => exact absurd hfu (Nat.not_lt_zero _)
    | succ f =>
      rw [parseJVal_dropWs f ws _ hws]
      have harg : ppValue k (JValue.obj .onil) ++ rest = '\x7b' :: '\x7d' :: rest := rfl
      rw [harg, parseJVal_obj_step,
        dropWs_cons_of_not_ws _ _ (show isJsonWs '\x7d' = false by decide)]
      rfl
  | .obj (.ocons key v o2), k, fuel, ws, rest, hws, hwf, hfu, hrest => by
    cases fuel with
    | zero => exact absurd hfu (Nat.not_lt_zero _)
    | succ f =>
      rw [parseJVal_dropWs f ws _ hws]
      have harg : ppValue k (JValue.obj (.ocons key v o2)) ++ rest
          = '\x7b' :: '\n' :: (ppFields k (.ocons key v o2) ++ '\n' ::
              (indentChars k ++ '\x7d' :: rest)) := by
        simp [ppValue, List.append_assoc]
      have hX : dropWs ('\n' :: (ppFields k (.ocons key v o2) ++ '\n' ::
          (indentChars k ++ '\x7d' :: rest)))
          = '"' :: (key.data.flatMap escapeJsonChar ++ '"' ::
              (':' :: ' ' :: (ppValue (k + 1) v ++ fieldsTail k o2 rest))) := by
        rw [dropWs_lf, ppFields_decomp k rest o2 key v, dropWs_indent]
        have hq : ∀ y : List Char, dropWs ('"' :: y) = '"' :: y := fun y =>
          dropWs_cons_of_not_ws _ _ (by decide)
        simp [quoteChars, hq, List.append_assoc]
      have hlen : (ppFields k (.ocons key v o2)).length + 1 < f := by
        simp only [ppValue, List.length_cons, List.length_append,
          List.length_replicate] at hfu
        omega
      have hfields : parseJFields f .onil
          (quoteChars key ++ ':' :: ' ' :: (ppValue (k + 1) v ++ fieldsTail k o2 rest))
          = .ok (JObject.onil.oappend (.ocons key v o2), rest) := by
        have h := rtFields key v o2 k f [] .onil rest
          (by intro c2 hc2; simp at hc2) hwf
          (by intro k2 h2; rfl) hlen
        simpa using h
      rw [harg, parseJVal_obj_step, hX]
      have hstep : (match ('"' :: (key.data.flatMap escapeJsonChar ++ '"' ::
              (':' :: ' ' :: (ppValue (k + 1) v ++ fieldsTail k o2 rest))) : List Char) with
          | [] => (.error "unexpected end of input" :
              Except String (JValue × List Char))
          | c1 :: r1 =>
            if c1 = '\x7d' then .ok (.obj .onil, r1)
            else
              match parseJFields f .onil (c1 :: r1) with
              | .ok (fields, r2) => .ok (.obj fields, r2)
              | .error e => .error e)
          = (match parseJFields f .onil ('"' :: (key.data.flatMap escapeJsonChar ++ '"' ::
                (':' :: ' ' :: (ppValue (k + 1) v ++ fieldsTail k o2 rest)))) with
             | .ok (fields, r2) => .ok (.obj fields, r2)
             | .error e => .error e) := if_neg (by decide)
      rw [hstep, show ('"' :: (key.data.flatMap escapeJsonChar ++ '"' ::
            (':' :: ' ' :: (ppValue (k + 1) v ++ fieldsTail k o2 rest))) : List Char)
          = quoteChars key ++ ':' :: ' ' ::
              (ppValue (k + 1) v ++ fieldsTail k o2 rest) from by
        simp [quoteChars, List.append_assoc], hfields]
      simp [JObject.oappend]
  termination_by v _ _ _ _ _ _ _ _ => sizeOf v
theorem rtItems : ∀ (w : JValue) (a : JArray) (k fuel : Nat) (ws rest : List Char),
    (∀ c ∈ ws, isJsonWs c = true) → wfValue w = true → wfArray a = true →
    (ppItems k (.acons w a)).length + 1 < fuel →
    parseJItems fuel (ws ++ (ppValue (k + 1) w ++ itemsTail k a rest))
      = .ok (.acons w a, rest)
  | w, .anil, k, fuel, ws, rest, hws, hwfv, hwfa, hfu => by
    cases fuel with
    | zero => omega
    | succ f =>
      have hlenv : (ppValue (k + 1) w).length < f := by
        simp only [ppItems, List.length_append, List.length_replicate] at hfu
        omega
      have hval := rtValue w (k + 1) f ws (itemsTail k .anil rest) hws hwfv
        hlenv (itemsTail_afterNumberOk k .anil rest)
      have hdrop : dropWs (itemsTail k .anil rest) = ']' :: rest := by
        simp only [itemsTail]
        rw [dropWs_lf, dropWs_indent,
          dropWs_cons_of_not_ws _ _ (show isJsonWs ']' = false by decide)]
      simp only [parseJItems]
      rw [hval]
      simp [hdrop]
  | w, .acons w2 a2, k, fuel, ws, rest, hws, hwfv, hwfa, hfu => by
    cases fuel with
    | zero => omega
    | succ f =>
      obtain ⟨hwf2, hwfa2⟩ : wfValue w2 = true ∧ wfArray a2 = true := by
        simpa [wfArray, Bool.and_eq_true] using hwfa
      have hlenv : (ppValue (k + 1) w).length < f := by
        simp only [ppItems, List.length_append, List.length_cons,
          List.length_replicate] at hfu
        omega
      have hlen2 : (ppItems k (.acons w2 a2)).length + 1 < f := by
        have hp := ppValue_length_pos (k + 1) w
        simp only [ppItems, List.length_append, List.length_cons,
          List.length_replicate] at hfu ⊢
        omega
      have hval := rtValue w (k + 1) f ws (itemsTail k (.acons w2 a2) rest) hws
        hwfv hlenv (itemsTail_afterNumberOk k (.acons w2 a2) rest)
      have hrec := rtItems w2 a2 k f ('\n' :: indentChars (k + 1)) rest
        (by
          intro c2 hc2
          rcases List.mem_cons.mp hc2 with h1 | h2
          · rw [h1]; decide
          · exact indentChars_ws (k + 1) c2 h2)
        hwf2 hwfa2 hlen2
      have hdrop : dropWs (itemsTail k (.acons w2 a2) rest)
          = ',' :: '\n' :: (indentChars (k + 1) ++
              ppValue (k + 1) w2 ++ itemsTail k a2 rest) := by
        simp only [itemsTail]
        exact dropWs_cons_of_not_ws ',' _ (by decide)
      have hre : parseJItems f ('\n' :: (indentChars (k + 1) ++
          (ppValue (k + 1) w2 ++ itemsTail k a2 rest))) = .ok (.acons w2 a2, rest) := by
        simpa [List.cons_append] using hrec
      simp only [parseJItems]
      rw [hval]
      simp [hdrop, hre]
  termination_by w a _ _ _ _ _ _ _ _ => sizeOf w + sizeOf a
theorem rtFields : ∀ (key : String) (v : JValue) (o : JObject) (k fuel : Nat)
    (ws : List Char) (acc : JObject) (out : List Char),
    (∀ c ∈ ws, isJsonWs c = true) → wfObject (.ocons key v o) = true →
    (∀ k2, (JObject.ocons key v o).hasKey k2 = true → acc.hasKey k2 = false) →
    (ppFields k (.ocons key v o)).length + 1 < fuel →
    parseJFields fuel acc (ws ++ (quoteChars key ++ ':' :: ' ' ::
        (ppValue (k + 1) v ++ fieldsTail k o out)))
      = .ok (acc.oappend (.ocons key v o), out)
  | key, v, .onil, k, fuel, ws, acc, out, hws, hwf, hdisj, hfu => by
    cases fuel with
    | zero => omega
    | succ f =>
      have hwfv : wfValue v = true := by
        simp only [wfObject, Bool.and_eq_true] at hwf
        exact hwf.1.2
      have hlenv : (ppValue (k + 1) v).length < f := by
        simp only [ppFields, quoteChars, List.length_append, List.length_cons,
          List.length_replicate] at hfu
        omega
      have hval := rtValue v (k + 1) f [' '] (fieldsTail k .onil out)
        (by intro c2 hc2; simp at hc2; rw [hc2]; decide) hwfv hlenv
        (fieldsTail_afterNumberOk k .onil out)
      have hkey : acc.hasKey key = false :=
        hdisj key (by simp [JObject.hasKey])
      have hdropq : dropWs (ws ++ (quoteChars key ++ ':' :: ' ' ::
          (ppValue (k + 1) v ++ fieldsTail k .onil out)))
          = '"' :: (key.data.flatMap escapeJsonChar ++ '"' ::
              (':' :: ' ' :: (ppValue (k + 1) v ++ fieldsTail k .onil out))) := by
        rw [dropWs_append_of_ws _ _ hws]
        have hq : ∀ y : List Char, dropWs ('"' :: y) = '"' :: y := fun y =>
          dropWs_cons_of_not_ws _ _ (by decide)
        simp [quoteChars, hq, List.append_assoc]
      have hdropc : dropWs (':' :: ' ' ::
          (ppValue (k + 1) v ++ fieldsTail k .onil out))
          = ':' :: ' ' :: (ppValue (k + 1) v ++ fieldsTail k .onil out) :=
        dropWs_cons_of_not_ws _ _ (by decide)
      have hvs : parseJVal f (' ' :: (ppValue (k + 1) v ++ fieldsTail k .onil out))
          = .ok (v, fieldsTail k .onil out) := by
        simpa [List.cons_append] using hval
      have hdropt : dropWs (fieldsTail k .onil out) = '\x7d' :: out := by
        simp only [fieldsTail]
        rw [dropWs_lf, dropWs_indent,
          dropWs_cons_of_not_ws _ _ (show isJsonWs '\x7d' = false by decide)]
      simp only [parseJFields]
      rw [hdropq]
      simp [parseStrBody_quote, hdropc, hvs, hdropt,
        JObject.setField_oappend acc key v hkey]
  | key, v, .ocons key2 v2 o2, k, fuel, ws, acc, out, hws, hwf, hdisj, hfu => by
    cases fuel with
    | zero => omega
    | succ f =>
      have hwfv : wfValue v = true := by
        simp only [wfObject, Bool.and_eq_true, Bool.not_eq_true'] at hwf
        exact hwf.1.2
      have hkv : (JObject.ocons key2 v2 o2).hasKey key = false := by
        simp only [wfObject, Bool.and_eq_true, Bool.not_eq_true'] at hwf
        exact hwf.1.1
      have hwfrec : wfObject (.ocons key2 v2 o2) = true := by
        simp only [wfObject, Bool.and_eq_true, Bool.not_eq_true'] at hwf ⊢
        exact hwf.2
      have hlenv : (ppValue (k + 1) v).length < f := by
        simp only [ppFields, quoteChars, List.length_append, List.length_cons,
          List.length_replicate] at hfu
        omega
      have hlen2 : (ppFields k (.ocons key2 v2 o2)).length + 1 < f := by
        have hp := ppValue_length_pos (k + 1) v
        simp only [ppFields, quoteChars, List.length_append, List.length_cons,
          List.length_replicate] at hfu ⊢
        omega
      have hval := rtValue v (k + 1) f [' ']
        (fieldsTail k (.ocons key2 v2 o2) out)
        (by intro c2 hc2; simp at hc2; rw [hc2]; decide) hwfv hlenv
        (fieldsTail_afterNumberOk k (.ocons key2 v2 o2) out)
      have hkey : acc.hasKey key = false :=
        hdisj key (by simp [JObject.hasKey])
      have hdisj2 : ∀ k2, (JObject.ocons key2 v2 o2).hasKey k2 = true →
          (acc.setField key v).hasKey k2 = false := by
        intro k2 h2
        rw [JObject.hasKey_setField]
        have hacc : acc.hasKey k2 = false :=
          hdisj k2 (by simp [JObject.hasKey]; right; simpa [JObject.hasKey] using h2)
        have hkne : (key == k2) = false := by
          by_contra hx
          rw [Bool.not_eq_false] at hx
          have hkk : key = k2 := by simpa using hx
          subst hkk
          rw [h2] at hkv
          simp at hkv
        simp [hkne, hacc]
      have hrec := rtFields key2 v2 o2 k f ('\n' :: indentChars (k + 1))
        (acc.setField key v) out
        (by
          intro c2 hc2
          rcases List.mem_cons.mp hc2 with h1 | h2
          · rw [h1]; decide
          · exact indentChars_ws (k + 1) c2 h2)
        hwfrec hdisj2 hlen2
      have hdropq : dropWs (ws ++ (quoteChars key ++ ':' :: ' ' ::
          (ppValue (k + 1) v ++ fieldsTail k (.ocons key2 v2 o2) out)))
          = '"' :: (key.data.flatMap escapeJsonChar ++ '"' ::
              (':' :: ' ' :: (ppValue (k + 1) v ++
                fieldsTail k (.ocons key2 v2 o2) out))) := by
        rw [dropWs_append_of_ws _ _ hws]
        have hq : ∀ y : List Char, dropWs ('"' :: y) = '"' :: y := fun y =>
          dropWs_cons_of_not_ws _ _ (by decide)
        simp [quoteChars, hq, List.append_assoc]
      have hdropc : dropWs (':' :: ' ' ::
          (ppValue (k + 1) v ++ fieldsTail k (.ocons key2 v2 o2) out))
          = ':' :: ' ' :: (ppValue (k + 1) v ++
              fieldsTail k (.ocons key2 v2 o2) out) :=
        dropWs_cons_of_not_ws _ _ (by decide)
      have hvs : parseJVal f (' ' :: (ppValue (k + 1) v ++
          fieldsTail k (.ocons key2 v2 o2) out))
          = .ok (v, fieldsTail k (.ocons key2 v2 o2) out) := by
        simpa [List.cons_append] using hval
      have hdropt : dropWs (fieldsTail k (.ocons key2 v2 o2) out)
          = ',' :: '\n' :: (indentChars (k + 1) ++ quoteChars key2 ++
              ':' :: ' ' :: (ppValue (k + 1) v2 ++ fieldsTail k o2 out)) := by
        simp only [fieldsTail]
        exact dropWs_cons_of_not_ws ',' _ (by decide)
      have hre : parseJFields f (acc.setField key v)
          ('\n' :: (indentChars (k + 1) ++ (quoteChars key2 ++
              ':' :: ' ' :: (ppValue (k + 1) v2 ++ fieldsTail k o2 out))))
          = .ok ((acc.setField key v).oappend (.ocons key2 v2 o2), out) := by
        simpa [List.cons_append] using hrec
      have hout : (acc.setField key v).oappend (.ocons key2 v2 o2)
          = acc.oappend (.ocons key v (.ocons key2 v2 o2)) := by
        rw [JObject.setField_oappend acc key v hkey, JObject.oappend_assoc]
        rfl
      simp only [parseJFields]
      rw [hdropq]
      simp [parseStrBody_quote, hdropc, hvs, hdropt, hre, hout]
  termination_by _ v o _ _ _ _ _ _ _ _ _ => sizeOf v + sizeOf o
end

theorem wfArray_ofList (col : List JValue) (h : wfCollection col = true) :
    wfArray (JArray.ofList col) = true := by
  induction col with
  | nil => rfl
  | cons v rest ih =>
    simp only [wfCollection, List.all_cons, Bool.and_eq_true] at h
    simp only [JArray.ofList, wfArray, Bool.and_eq_true]
    exact ⟨h.1, ih (by simpa [wfCollection] using h.2)⟩

/-- Claim C9: the file roundtrip — serializing a collection of well-formed
records with the pretty-printing write and reading it back through
`readPortfolios` yields exactly the same sequence, so a restart against the
written data file preserves every record. -/
theorem claim_C9_roundtrip (col : List JValue) (h : wfCollection col = true) :
    readPortfolios (writePortfoliosFile col) = .arr (JArray.ofList col) ∧
    (JArray.ofList col).toList = col := by
  refine ⟨?_, JArray.toList_ofList col⟩
  have hwfV : wfValue (.arr (JArray.ofList col)) = true := by
    simpa [wfValue] using wfArray_ofList col h
  have hp : parseJVal (2 * (ppValue 0 (.arr (JArray.ofList col))).length + 2)
      (ppValue 0 (.arr (JArray.ofList col)))
      = .ok (.arr (JArray.ofList col), []) := by
    have h2 := rtValue (.arr (JArray.ofList col)) 0
      (2 * (ppValue 0 (.arr (JArray.ofList col))).length + 2) [] []
      (by intro c hc; simp at hc) hwfV (by omega) rfl
    simpa using h2
  have hjson : jsonParse (stringifyPretty (.arr (JArray.ofList col)))
      = .ok (.arr (JArray.ofList col)) := by
    have hd : (stringifyPretty (.arr (JArray.ofList col))).data
        = ppValue 0 (.arr (JArray.ofList col)) := rfl
    simp [jsonParse, hd, hp, dropWs]
  simp [readPortfolios, readPortfoliosTry, fsReadFile, writePortfoliosFile,
    hjson]

theorem claim_C9_roundtrip_witness :
    readPortfolios (writePortfoliosFile
      [.obj (.ocons "id" (.str "a") (.ocons "title" (.str "My Site") .onil)),
       .obj (.ocons "id" (.str "b") (.ocons "n" (.num (-7)) .onil))])
      = .arr (JArray.ofList
        [.obj (.ocons "id" (.str "a") (.ocons "title" (.str "My Site") .onil)),
         .obj (.ocons "id" (.str "b") (.ocons "n" (.num (-7)) .onil))]) ∧
    (JArray.ofList
      [.obj (.ocons "id" (.str "a") (.ocons "title" (.str "My Site") .onil)),
       .obj (.ocons "id" (.str "b") (.ocons "n" (.num (-7)) .onil))]).toList
      = [.obj (.ocons "id" (.str "a") (.ocons "title" (.str "My Site") .onil)),
         .obj (.ocons "id" (.str "b") (.ocons "n" (.num (-7)) .onil))] :=
  claim_C9_roundtrip
    [.obj (.ocons "id" (.str "a") (.ocons "title" (.str "My Site") .onil)),
     .obj (.ocons "id" (.str "b") (.ocons "n" (.num (-7)) .onil))] (by decide)
